import Mathlib

/-!
Shallow embedding of the PuntoDB rule engine (the `Card`, `Player` and `Board`
classes of the TypeScript source) and verification of the specification's
claims about it.

Modelling conventions:
* Player references are modelled by `pid : Nat` identifiers; the board stores
  players in a list and all players carry pairwise distinct pids in the states
  we build (pids play the role of JS object identity).
* A JS `Card | null` hand is `Option Card`; `Card.x`/`Card.y` are initialised
  to `NaN` in the source and never read before placement, here they default
  to `0`.
* `Math.random()` draws are made explicit parameters: every random index the
  source consumes is taken from a `List Nat` stream (reduced modulo the live
  range, mirroring `Math.floor(Math.random() * n) < n`), so each concrete run
  of the program corresponds to one value of the stream and universally
  quantified theorems cover all runs.
* JS `forEach` loops are written as structural recursions that visit the
  elements in the same order.
-/

namespace Punto

structure Card where
  color : String
  value : Nat
  x : Int := 0
  y : Int := 0
  playedTurn : Int := -1
  playedIn : Int := -1
  playedBy : Option Nat := Option.none
deriving DecidableEq, Repr

structure Player where
  pid : Nat
  name : String := ""
  deck : List Card := []
  hand : Option Card := Option.none
  points : Nat := 0
  isTurn : Bool := false
  color : List String := []
  nbrFirstPlayer : Nat := 0
deriving DecidableEq, Repr

inductive WinType where
  | Win
  | Draw
  | Drop
  | None
deriving DecidableEq, Repr

structure Board where
  cards : List Card := []
  players : List Player := []
  turn : Nat := 0
  winType : WinType := WinType.None
  winners : List Nat := []
  losers : List Nat := []
deriving DecidableEq, Repr

def defaultCard : Card := { color := "", value := 0 }

def defaultPlayer : Player := { pid := 0 }

/-- Player.drawCard: `_deck.pop()` removes the LAST element of the deck and
puts it in the hand; returns false when the deck is empty. -/
def Player.drawCard (p : Player) : Player × Bool :=
  match p.deck.getLast? with
  | Option.none => (p, false)
  | some c => ({ p with deck := p.deck.dropLast, hand := some c }, true)

/-- Player.cardInHand: returns the hand card, or `false` (here `none`). -/
def Player.cardInHand (p : Player) : Option Card := p.hand

/-- Player.removeCardFromHand. -/
def Player.removeCardFromHand (p : Player) : Player × Bool :=
  match p.hand with
  | Option.none => (p, false)
  | some _ => ({ p with hand := Option.none }, true)

/-- Player.addPoints. -/
def Player.addPoints (p : Player) (n : Nat) : Player :=
  { p with points := p.points + n }

/-- Player.reset: clears deck, hand, points, isTurn and colors; the
`nbrFirstPlayer` counter is deliberately NOT reset. -/
def Player.reset (p : Player) : Player :=
  { p with deck := [], hand := Option.none, points := 0, isTurn := false, color := [] }

def Board.boardIsEmpty (b : Board) : Bool := b.cards.isEmpty

def Board.boardIsFull (b : Board) : Bool := b.cards.length = 72

def Board.nbrPlayers (b : Board) : Nat := b.players.length

def Board.getPlayerTurn (b : Board) : Option Player :=
  b.players.find? (fun p => p.isTurn)

def Board.isGameOver (b : Board) : Bool := decide (b.winType ≠ WinType.None)

/-- Board.lineExceedsLimit: the bounding-box cap.  The four extremes are
accumulated over all placed cards starting from 0 (the source initialises
them to 0, so the box implicitly contains the origin), then the candidate
coordinates are merged in and the extents compared to the limit. -/
def lineExceedsLimit (b : Board) (c : Int × Int) (limit : Int) : Bool :=
  let exMaxX : Int := b.cards.foldl (fun m cb => if m < cb.x then cb.x else m) 0
  let exMinX : Int := b.cards.foldl (fun m cb => if cb.x < m then cb.x else m) 0
  let exMaxY : Int := b.cards.foldl (fun m cb => if m < cb.y then cb.y else m) 0
  let exMinY : Int := b.cards.foldl (fun m cb => if cb.y < m then cb.y else m) 0
  if limit ≤ exMaxX - exMinX ∨ limit ≤ exMaxY - exMinY then true
  else
    let nMaxX := if exMaxX < c.1 then c.1 else exMaxX
    let nMinX := if c.1 < exMinX then c.1 else exMinX
    let nMaxY := if exMaxY < c.2 then c.2 else exMaxY
    let nMinY := if c.2 < exMinY then c.2 else exMinY
    if limit ≤ nMaxX - nMinX ∨ limit ≤ nMaxY - nMinY then true else false

/-- The up-to-9 candidate cells pushed for one placed card in
Board.availableCoordinates: its own cell plus the 8-neighbourhood clipped to
the 11x11 window. -/
def possibleCoordsAround (x y : Int) : List (Int × Int) :=
  [(x, y)]
    ++ (if x + 1 ≤ 5 then [(x + 1, y)] else [])
    ++ (if -5 ≤ x - 1 then [(x - 1, y)] else [])
    ++ (if y + 1 ≤ 5 then [(x, y + 1)] else [])
    ++ (if -5 ≤ y - 1 then [(x, y - 1)] else [])
    ++ (if x + 1 ≤ 5 ∧ y + 1 ≤ 5 then [(x + 1, y + 1)] else [])
    ++ (if -5 ≤ x - 1 ∧ -5 ≤ y - 1 then [(x - 1, y - 1)] else [])
    ++ (if x + 1 ≤ 5 ∧ -5 ≤ y - 1 then [(x + 1, y - 1)] else [])
    ++ (if -5 ≤ x - 1 ∧ y + 1 ≤ 5 then [(x - 1, y + 1)] else [])

/-- The per-candidate occupancy filter of Board.availableCoordinates: a
candidate survives unless some card already at that cell has value greater
than or equal to the value being placed. -/
def candidateFree (b : Board) (cardValue : Nat) (c : Int × Int) : Bool :=
  !(b.cards.any (fun cb => decide (cb.x = c.1 ∧ cb.y = c.2 ∧ cardValue ≤ cb.value)))

/-- Board.availableCoordinates: for every placed card collect the surviving
neighbourhood candidates, then drop those violating the bounding-box cap. -/
def availableCoordinates (b : Board) (cardValue : Nat) : List (Int × Int) :=
  let base := b.cards.flatMap (fun cob =>
    (possibleCoordsAround cob.x cob.y).filter (candidateFree b cardValue))
  base.filter (fun c => !(lineExceedsLimit b c 6))

/-- Board.cardCanBePlaced. -/
def cardCanBePlaced (b : Board) (card : Card) (x y : Int) : Bool :=
  if 5 < x ∨ x < -5 ∨ 5 < y ∨ y < -5 then false
  else if lineExceedsLimit b (x, y) 6 then false
  else if b.boardIsEmpty then true
  else (availableCoordinates b card.value).any (fun c => decide (c.1 = x ∧ c.2 = y))

/-- Board.placeCard: on success the card's placement metadata is set and it is
pushed onto the board's card list. -/
def placeCard (b : Board) (card : Card) (x y : Int) (turn : Nat) (pid : Nat)
    (playerTurn : Nat) : Board × Bool :=
  if cardCanBePlaced b card x y then
    let placed := { card with x := x, y := y, playedTurn := (turn : Int), playedIn := (playerTurn : Int), playedBy := some pid }
    ({ b with cards := b.cards ++ [placed] }, true)
  else (b, false)

/-- Board.playCard, with the player given by its index in the board's player
list (playing the role of the JS object reference). -/
def playCard (b : Board) (i : Nat) (playerTurn : Nat) (card : Card) (x y : Int) :
    Board × String :=
  let player := b.players.getD i defaultPlayer
  match player.cardInHand with
  | Option.none => (b, "The player does not have the card in hand.")
  | some _ =>
    let res := placeCard b card x y b.turn player.pid playerTurn
    if res.2 then
      match (res.1.players.getD i defaultPlayer).hand with
      | Option.none => (res.1, "The card could not be removed from the player's hand.")
      | some _ =>
        let players' := res.1.players.set i
          { res.1.players.getD i defaultPlayer with hand := Option.none }
        ({ res.1 with players := players' }, "The card was successfully placed.")
    else (b, "The card could not be placed.")

/-! ## Series detection (Board.determineSeriesOfCards and friends) -/

/-- Removing every earlier card with the same coordinates from a bucket and
pushing the new card at the end (the splice loops of
Board.determineSeriesOfCards). -/
def dedupePush (bucket : List Card) (card : Card) : List Card :=
  (bucket.filter (fun c => !(decide (c.x = card.x ∧ c.y = card.y)))) ++ [card]

/-- Inserting one card into the association list of buckets for one grouping
key.  Buckets are kept in order of first appearance of their key; the claims
proved below do not depend on bucket order (the JS for-in order differs
for negative numeric keys). -/
def addToGroups (groups : List (Int × List Card)) (k : Int) (card : Card) :
    List (Int × List Card) :=
  if groups.any (fun g => g.1 = k) then
    groups.map (fun g => if g.1 = k then (g.1, dedupePush g.2 card) else g)
  else groups ++ [(k, [card])]

/-- Grouping all board cards by a key (x, y, x−y or x+y), deduplicating cards
at equal coordinates so that only the most recently placed (hence
highest-valued) card of each cell remains. -/
def buildGroups (key : Card → Int) (cards : List Card) : List (Int × List Card) :=
  cards.foldl (fun gs c => addToGroups gs (key c) c) []

def insertByKey (f : Card → Int) (c : Card) : List Card → List Card
  | [] => [c]
  | d :: ds => if f c ≤ f d then c :: d :: ds else d :: insertByKey f c ds

/-- Ascending sort of one bucket by the sorting key (`card1.y - card2.y` or
`card1.x - card2.x` in the source); keys inside a bucket are pairwise
distinct after deduplication, so any correct sort is the same list. -/
def sortByKey (f : Card → Int) : List Card → List Card
  | [] => []
  | c :: cs => insertByKey f c (sortByKey f cs)

/-- The row/column run scan of Board.determineSeriesOfCards: grow the current
series while the next card is adjacent (per `adj`) with equal color; push the
series as soon as it reaches `len` and restart; on a break push only if long
enough (never the case, as series reset at `len`); the trailing series is
dropped. -/
def scanLineGo (adj : Card → Card → Bool) (len : Nat) (series : List Card) :
    List Card → List (List Card)
  | [] => []
  | c :: cs =>
    match series.getLast? with
    | Option.none => scanLineGo adj len [c] cs
    | some last =>
      if adj last c then
        let series' := series ++ [c]
        if len ≤ series'.length then series' :: scanLineGo adj len [] cs
        else scanLineGo adj len series' cs
      else
        if len ≤ series.length then series :: scanLineGo adj len [c] cs
        else scanLineGo adj len [c] cs

def scanLine (adj : Card → Card → Bool) (len : Nat) (cards : List Card) :
    List (List Card) :=
  scanLineGo adj len [] cards

/-- Adjacency used in the column buckets (same x): next card one step up in y
with the same color. -/
def adjSameX (prev c : Card) : Bool := decide (c.y = prev.y + 1 ∧ c.color = prev.color)

/-- Adjacency used in the row buckets (same y): next card one step right in x
with the same color. -/
def adjSameY (prev c : Card) : Bool := decide (c.x = prev.x + 1 ∧ c.color = prev.color)

/-- Board.isNextInDiagonal. -/
def isNextInDiagonal (prev c : Card) (isLeftToRight : Bool) : Bool :=
  if isLeftToRight then decide (c.x = prev.x + 1 ∧ c.y = prev.y + 1)
  else decide (c.x = prev.x + 1 ∧ c.y = prev.y - 1)

/-- Board.isSamePlayerAndColor: equal color and equal owning player id (both
unowned also counts as equal, as in `playedBy?.id === playedBy?.id`). -/
def isSamePlayerAndColor (c1 c2 : Card) : Bool :=
  decide (c1.color = c2.color ∧ c1.playedBy = c2.playedBy)

/-- Board.findSeriesInDiagonal: collects maximal runs (ownership and color
judged against the first card of the run) and keeps those of length at least
`len`, including the trailing run. -/
def findSeriesInDiagonalGo (isLeftToRight : Bool) (len : Nat) (temp : List Card) :
    List Card → List (List Card)
  | [] => if len ≤ temp.length then [temp] else []
  | c :: cs =>
    match temp.head? with
    | Option.none => findSeriesInDiagonalGo isLeftToRight len [c] cs
    | some t0 =>
      if isNextInDiagonal (temp.getLast?.getD t0) c isLeftToRight
          && isSamePlayerAndColor t0 c then
        findSeriesInDiagonalGo isLeftToRight len (temp ++ [c]) cs
      else if len ≤ temp.length then
        temp :: findSeriesInDiagonalGo isLeftToRight len [c] cs
      else findSeriesInDiagonalGo isLeftToRight len [c] cs

def findSeriesInDiagonal (cards : List Card) (len : Nat) (isLeftToRight : Bool) :
    List (List Card) :=
  findSeriesInDiagonalGo isLeftToRight len [] cards

/-- Board.determineSeriesOfCards: group by x, y, x−y and x+y, deduplicate per
cell, sort each bucket and scan for runs of length `len`. -/
def determineSeriesOfCards (b : Board) (len : Nat) : List (List Card) :=
  let gX := buildGroups (fun c => c.x) b.cards
  let gY := buildGroups (fun c => c.y) b.cards
  let gD1 := buildGroups (fun c => c.x - c.y) b.cards
  let gD2 := buildGroups (fun c => c.x + c.y) b.cards
  (gX.flatMap (fun g => scanLine adjSameX len (sortByKey (fun c => c.y) g.2)))
    ++ (gY.flatMap (fun g => scanLine adjSameY len (sortByKey (fun c => c.x) g.2)))
    ++ (gD1.flatMap (fun g => findSeriesInDiagonal (sortByKey (fun c => c.x) g.2) len true))
    ++ (gD2.flatMap (fun g => findSeriesInDiagonal (sortByKey (fun c => c.x) g.2) len false))

/-- The per-series owner scan shared by Board.hasWinningSeries and
Board.determineWinnerForBlockedGame.  The tracked `player` is the first owned
card's player; an entry `(player, serie)` is pushed exactly when the card at
index `len - 1` is owned by that player (the `return` inside the JS forEach
only skips one iteration, so differing owners in between do not stop the
scan).  Returns the pushed player's id, if any. -/
def seriesEntry (len : Nat) (serie : List Card) : Option Nat :=
  (serie.foldl
    (fun (st : Option Nat × Nat × Option Nat) card =>
      match st.1 with
      | some p =>
        if card.playedBy ≠ some p then (st.1, st.2.1 + 1, st.2.2)
        else if st.2.1 = len - 1 then (st.1, st.2.1 + 1, some p)
        else (st.1, st.2.1 + 1, st.2.2)
      | Option.none => (card.playedBy, st.2.1 + 1, st.2.2))
    (Option.none, 0, Option.none)).2.2

/-- Board.hasWinningSeries: a winner exists only when exactly one series
qualifies overall. -/
def hasWinningSeries (b : Board) (len : Nat) : Option Nat :=
  if ((determineSeriesOfCards b len).filterMap (seriesEntry len)).length = 1 then
    ((determineSeriesOfCards b len).filterMap (seriesEntry len)).head?
  else Option.none

/-- Board.isGameBlocked: full board, or the player whose turn it is still
holds a card. -/
def isGameBlocked (b : Board) : Bool :=
  if b.boardIsFull then true
  else
    match b.getPlayerTurn with
    | some p => p.hand.isSome
    | Option.none => false

/-! ## Blocked-game resolution (Board.determineWinnerForBlockedGame) -/

def headPlayedBy (s : List Card) : Option Nat := s.head?.bind (fun c => c.playedBy)

/-- How many of the detected series start with a card owned by `p`
(`series[0].playedBy === player` in the source). -/
def countSeriesFor (seriesOfCards : List (List Card)) (p : Nat) : Nat :=
  seriesOfCards.countP (fun s => decide (headPlayedBy s = some p))

/-- Total face value of all series starting with a card owned by `p`. -/
def sumSeriesFor (seriesOfCards : List (List Card)) (p : Nat) : Nat :=
  (seriesOfCards.filter (fun s => decide (headPlayedBy s = some p))).foldl
    (fun acc s => acc + s.foldl (fun a c => a + c.value) 0) 0

/-- The deduplication loops of Board.determineWinnerForBlockedGame: a JS
forEach over the original index range that splices out the visited entry when
its player was already seen.  Because splicing shifts the array under the
still-running forEach, the element after a removed one is skipped — the model
reproduces this (`k` keeps advancing while the list shrinks). -/
def dedupeGo (arr : List Nat) (seen : List Nat) (k : Nat) : Nat → List Nat
  | 0 => arr
  | steps + 1 =>
    match arr[k]? with
    | Option.none => dedupeGo arr seen (k + 1) steps
    | some e =>
      if e ∈ seen then dedupeGo (arr.eraseIdx k) seen (k + 1) steps
      else dedupeGo arr (e :: seen) (k + 1) steps

def dedupePlayers (arr : List Nat) : List Nat := dedupeGo arr [] 0 arr.length

/-- Board.determineWinnerForBlockedGame.  Note that the tie-break machinery
only runs when MORE than one series qualifies; a single qualifying series
yields no winner at all. -/
def determineWinnerForBlockedGame (b : Board) : List Nat :=
  let seriesOfCards := determineSeriesOfCards b 3
  let entries := seriesOfCards.filterMap (seriesEntry 3)
  if 1 < entries.length then
    let maxCount := (entries.map (countSeriesFor seriesOfCards)).foldl
      (fun m c => if m < c then c else m) 0
    let withMax := dedupePlayers
      (entries.filter (fun p => countSeriesFor seriesOfCards p = maxCount))
    if 1 < withMax.length then
      let minSum := withMax.foldl
        (fun (m : Option Nat) p =>
          match m with
          | Option.none => some (sumSeriesFor seriesOfCards p)
          | some mv =>
            if sumSeriesFor seriesOfCards p < mv then some (sumSeriesFor seriesOfCards p)
            else some mv)
        Option.none
      dedupePlayers (withMax.filter (fun p => some (sumSeriesFor seriesOfCards p) = minSum))
    else [withMax.headD 0]
  else []

/-! ## Victory checking and game end -/

structure GameVictory where
  winType : WinType
  winners : List Nat
  losers : List Nat
deriving DecidableEq, Repr

def allPids (b : Board) : List Nat := b.players.map (fun p => p.pid)

/-- Board.checkVictory.  The source duplicates the run-based branch for the
2-player (length 5) and 3/4-player (length 4) cases with identical bodies;
both are expressed here through `requiredLen`. -/
def checkVictory (b : Board) : GameVictory :=
  match hasWinningSeries b (if b.nbrPlayers = 2 then 5 else 4) with
  | some w =>
    ⟨WinType.Win, [w], (allPids b).filter (fun p => !(decide (p = w)))⟩
  | Option.none =>
    if isGameBlocked b then
      ⟨if (determineWinnerForBlockedGame b).length = 0 then WinType.Draw else WinType.Win,
       determineWinnerForBlockedGame b,
       (allPids b).filter (fun p => !((determineWinnerForBlockedGame b).contains p))⟩
    else ⟨WinType.None, [], allPids b⟩

/-- Board.addPoints applied to the winners: every occurrence of a player in
the winners list adds one point to that player. -/
def addPointsList (players : List Player) (winners : List Nat) : List Player :=
  winners.foldl
    (fun ps w => ps.map (fun p => if p.pid = w then p.addPoints 1 else p)) players

/-- Board.endGame: record win type, losers and winners, and on a Win add one
point per winners-list occurrence. -/
def endGame (b : Board) (wt : WinType) (ws ls : List Nat) : Board :=
  let b' := { b with winType := wt, losers := ls, winners := ws }
  if wt = WinType.Win then { b' with players := addPointsList b'.players ws } else b'

/-! ## The coordinate-acquisition loop of Board.doATurn -/

/-- Board.determineCardCoordinates: uniform random pick among the available
coordinates, `none` when there are none (the random draw is the explicit
parameter `r`). -/
def determineCardCoordinates (r : Nat) (b : Board) (cardValue : Nat) :
    Option (Int × Int) :=
  let avail := availableCoordinates b cardValue
  if avail.length = 0 then Option.none
  else avail[r % avail.length]?

/-- One reply of the external coordinate provider: concrete coordinates, the
"auto" sentinel (`Infinity` coordinates, resolved through
determineCardCoordinates with random draw `r`), or a refusal. -/
inductive ProviderReply where
  | coords (x y : Int)
  | autoPick (r : Nat)
  | refuse
deriving DecidableEq, Repr

/-- What doATurn does when coordinate acquisition yields no coordinates (the
provider refused, or the auto pick found no available cell): checkVictory,
then endGame with its result. -/
def doRefusalEnd (b : Board) : Board :=
  let gv := checkVictory b
  endGame b gv.winType gv.winners gv.losers

/-- The non-auto do-while loop of doATurn on a non-empty board: consume
provider replies until one passes cardCanBePlaced (`inr` with the accepted
coordinates), or a refusal/failed auto pick ends the game (`inl` with the
final board); `none` when the reply list runs out with the loop still
spinning. -/
def coordinatePhase (b : Board) (card : Card) :
    List ProviderReply → Option (Board ⊕ (Int × Int))
  | [] => Option.none
  | r :: rest =>
    let coordinates : Option (Int × Int) :=
      match r with
      | ProviderReply.refuse => Option.none
      | ProviderReply.coords x y => some (x, y)
      | ProviderReply.autoPick rnd => determineCardCoordinates rnd b card.value
    match coordinates with
    | Option.none => some (Sum.inl (doRefusalEnd b))
    | some (x, y) =>
      if cardCanBePlaced b card x y then some (Sum.inr (x, y))
      else coordinatePhase b card rest

/-! ## Card distribution, reset and construction -/

def colorsInit : List String := ["red", "blue", "green", "yellow"]

/-- The two copies of each value 1..9 in one color ("Each color has twice
each card from 1 to 9"). -/
def listCardFor (color : String) : List Card :=
  (List.range 9).flatMap (fun i =>
    [{ color := color, value := i + 1 }, { color := color, value := i + 1 }])

/-- Consume one value from the explicit random stream (0 when exhausted). -/
def takeRand : List Nat → Nat × List Nat
  | [] => (0, [])
  | r :: rest => (r, rest)

/-- `l[Math.floor(Math.random() * l.length)]` followed by
`l.splice(l.indexOf(c), 1)`: pick the element at the random index and remove
its first occurrence. -/
def pickRemove {α : Type} [DecidableEq α] (l : List α) (r : Nat) (dflt : α) :
    α × List α :=
  let c := l.getD (r % l.length) dflt
  (c, l.erase c)

/-- One Fisher–Yates swap step:`[l[i], l[j]] = [l[j], l[i]]`. -/
def swapIdx (l : List Card) (i j : Nat) : List Card :=
  let a := l.getD i defaultCard
  let b := l.getD j defaultCard
  (l.set i b).set j a

/-- The Fisher–Yates loop of Player.shuffleDeck, with `i` counting down from
`length - 1` to `1` and `j` drawn from the stream modulo `i + 1`. -/
def fyGo (rand : List Nat) (deck : List Card) : Nat → List Card × List Nat
  | 0 => (deck, rand)
  | k + 1 =>
    let (r, rand') := takeRand rand
    fyGo rand' (swapIdx deck (k + 1) (r % (k + 2))) k

def shuffleDeck (rand : List Nat) (deck : List Card) : List Card × List Nat :=
  fyGo rand deck (deck.length - 1)

/-- Player.fillDeck: push the cards then shuffle the whole deck. -/
def fillDeck (rand : List Nat) (p : Player) (cards : List Card) :
    Player × List Nat :=
  let res := shuffleDeck rand (p.deck ++ cards)
  ({ p with deck := res.1 }, res.2)

/-- `player.color.forEach((color) => player.fillDeck(listCard[color]))`. -/
def fillColors (rand : List Nat) (p : Player) : List String → Player × List Nat
  | [] => (p, rand)
  | c :: cs =>
    let res := fillDeck rand p (listCardFor c)
    fillColors res.2 res.1 cs

/-- The 2-player distribution loop: each player draws two random colors
without replacement and receives the full card lists of both. -/
def d2go (rand : List Nat) (colors : List String) :
    List Player → List Player × List String × List Nat
  | [] => ([], colors, rand)
  | p :: ps =>
    let (r1, rand1) := takeRand rand
    let (c1, colors1) := pickRemove colors r1 ""
    let (r2, rand2) := takeRand rand1
    let (c2, colors2) := pickRemove colors1 r2 ""
    let p1 := { p with color := [c1, c2] }
    let (p2, rand3) := fillColors rand2 p1 p1.color
    let (rest, colorsF, randF) := d2go rand3 colors2 ps
    (p2 :: rest, colorsF, randF)

/-- Phase one of the 3-player distribution: assign one random color to each
player (without replacement). -/
def d3assign (rand : List Nat) (colors : List String) :
    List Player → List Player × List String × List Nat
  | [] => ([], colors, rand)
  | p :: ps =>
    let (r, rand1) := takeRand rand
    let (c, colors1) := pickRemove colors r ""
    let (rest, colorsF, randF) := d3assign rand1 colors1 ps
    ({ p with color := [c] } :: rest, colorsF, randF)

/-- Drawing `n` random cards one by one from the leftover-color pool. -/
def pickN (rand : List Nat) (pool : List Card) :
    Nat → List Card × List Card × List Nat
  | 0 => ([], pool, rand)
  | n + 1 =>
    let (r, rand1) := takeRand rand
    let (c, pool1) := pickRemove pool r defaultCard
    let (rest, poolF, randF) := pickN rand1 pool1 n
    (c :: rest, poolF, randF)

/-- Phase two of the 3-player distribution: fill each player's own color and
then 6 random cards from the leftover color. -/
def d3fill (rand : List Nat) (pool : List Card) :
    List Player → List Player × List Card × List Nat
  | [] => ([], pool, rand)
  | p :: ps =>
    let (p1, rand1) := fillColors rand p p.color
    let (six, pool1, rand2) := pickN rand1 pool 6
    let (p2, rand3) := fillDeck rand2 p1 six
    let (rest, poolF, randF) := d3fill rand3 pool1 ps
    (p2 :: rest, poolF, randF)

/-- The 4-player (and fallback) distribution loop: one random color per
player. -/
def d4go (rand : List Nat) (colors : List String) :
    List Player → List Player × List String × List Nat
  | [] => ([], colors, rand)
  | p :: ps =>
    let (r, rand1) := takeRand rand
    let (c, colors1) := pickRemove colors r ""
    let p1 := { p with color := [c] }
    let (p2, rand2) := fillColors rand1 p1 p1.color
    let (rest, colorsF, randF) := d4go rand2 colors1 ps
    (p2 :: rest, colorsF, randF)

/-- Board.cardDistribution. -/
def cardDistribution (rand : List Nat) (players : List Player) : List Player :=
  if players.length = 2 then (d2go rand colorsInit players).1
  else if players.length = 3 then
    let asg := d3assign rand colorsInit players
    let lastColor := asg.2.1.headD ""
    (d3fill asg.2.2 (listCardFor lastColor) asg.1).1
  else (d4go rand colorsInit players).1

/-- The forEach scan of Board.playerTurnByNbrFirstPlayer: `bestIdx` and
`bestVal` are the current extremal player's index and counter (`bestVal =
none` is the ±Infinity initial value), `i` the index of the next player;
strict comparison keeps the earliest extremal player. -/
def turnIdxGo (byMax : Bool) (bestIdx : Nat) (bestVal : Option Nat) (i : Nat) :
    List Player → Nat
  | [] => bestIdx
  | p :: ps =>
    if (match bestVal with
        | Option.none => true
        | some v =>
          if byMax then decide (v < p.nbrFirstPlayer) else decide (p.nbrFirstPlayer < v)) then
      turnIdxGo byMax i (some p.nbrFirstPlayer) (i + 1) ps
    else turnIdxGo byMax bestIdx bestVal (i + 1) ps

/-- Board.playerTurnByNbrFirstPlayer, returning the index of the selected
player (the JS method also sets its isTurn flag; callers below do that
explicitly). -/
def playerTurnByNbrFirstPlayerIdx (players : List Player) (byMax : Bool) : Nat :=
  turnIdxGo byMax 0 Option.none 0 players

/-- Board.reset: clear cards and per-player state, pick the next first player
by least nbrFirstPlayer, give them the turn, bump their counter, clear the
outcome and redistribute. -/
def Board.reset (rand : List Nat) (b : Board) : Board :=
  let players1 := b.players.map Player.reset
  let i0 := playerTurnByNbrFirstPlayerIdx players1 false
  let p0 := players1.getD i0 defaultPlayer
  let players2 := players1.set i0
    { p0 with isTurn := true, nbrFirstPlayer := p0.nbrFirstPlayer + 1 }
  { b with cards := [], players := cardDistribution rand players2, turn := 0,
           winType := WinType.None, winners := [], losers := [] }

structure PlayerOptions where
  name : String
  points : Nat := 0
  isTurn : Bool := false
deriving DecidableEq, Repr

def mkPlayer (pid : Nat) (o : PlayerOptions) : Player :=
  { pid := pid, name := o.name, points := o.points, isTurn := o.isTurn }

/-- Board.randomizePlayerTurn with onlyWinners = false (the constructor's
call): `Math.floor(Math.random() * 1000) % players.length`. -/
def randomizePlayerTurnSet (r : Nat) (players : List Player) : List Player :=
  let i := (r % 1000) % players.length
  players.set i { players.getD i defaultPlayer with isTurn := true }

/-- The Board constructor: fails outside 2..4 players, builds the players
(pids are their indices), randomizes the turn when no option carries it, and
distributes the cards. -/
def Board.init (rand : List Nat) (r0 : Nat) (opts : List PlayerOptions)
    (nbrPlayers : Nat) : Option Board :=
  if nbrPlayers < 2 ∨ 4 < nbrPlayers then Option.none
  else
    let listPlayer := (List.range nbrPlayers).map
      (fun i => mkPlayer i (opts.getD i { name := "" }))
    let listPlayer' :=
      if listPlayer.any (fun p => p.isTurn) then listPlayer
      else randomizePlayerTurnSet r0 listPlayer
    some { cards := [], players := cardDistribution rand listPlayer' }

/-! ## The game-flow step relation (doATurn-driven state changes) -/

/-- Player `i` draws a card (doATurn step 1; the game loop only draws into an
empty hand — a non-empty hand raises there). -/
def boardDrawAt (b : Board) (i : Nat) : Board :=
  { b with players := b.players.set i (b.players.getD i defaultPlayer).drawCard.1 }

/-- Board.addTurn. -/
def addTurn (b : Board) : Board := { b with turn := b.turn + 1 }

/-- Setting one player's isTurn flag (doATurn's bookkeeping). -/
def setIsTurn (b : Board) (i : Nat) (v : Bool) : Board :=
  { b with players := b.players.set i { b.players.getD i defaultPlayer with isTurn := v } }

/-- One state change of the turn loop: drawing into an empty hand, playing
the held card, ending the game, advancing the turn counter or the turn flag,
or a reset. -/
inductive GameStep : Board → Board → Prop
  | draw (b : Board) (i : Nat) (h : i < b.players.length)
      (hh : (b.players.getD i defaultPlayer).hand = Option.none) :
      GameStep b (boardDrawAt b i)
  | play (b : Board) (i pt : Nat) (c : Card) (x y : Int)
      (h : i < b.players.length)
      (hc : (b.players.getD i defaultPlayer).hand = some c) :
      GameStep b (playCard b i pt c x y).1
  | ending (b : Board) (wt : WinType) (ws ls : List Nat) :
      GameStep b (endGame b wt ws ls)
  | turnIncr (b : Board) : GameStep b (addTurn b)
  | turnFlag (b : Board) (i : Nat) (v : Bool) (h : i < b.players.length) :
      GameStep b (setIsTurn b i v)
  | resetStep (b : Board) (rand : List Nat) : GameStep b (Board.reset rand b)

/-- Game states reachable from construction by the game flow. -/
inductive Reachable : Board → Prop
  | init (rand : List Nat) (r0 : Nat) (opts : List PlayerOptions) (n : Nat)
      (b : Board) (h : Board.init rand r0 opts n = some b) : Reachable b
  | step {b b' : Board} (hr : Reachable b) (hs : GameStep b b') : Reachable b'

/-! ## Card accounting -/

def cardPair (c : Card) : String × Nat := (c.color, c.value)

/-- All cards a player holds (draw pile plus hand), as a multiset of
(color, value) pairs. -/
def playerCardsMS (p : Player) : Multiset (String × Nat) :=
  (p.deck.map cardPair : Multiset (String × Nat))
    + (match p.hand with
       | some c => {cardPair c}
       | Option.none => 0)

/-- The cards held by a list of players (decks and hands together). -/
def playersMS (ps : List Player) : Multiset (String × Nat) :=
  (ps.map playerCardsMS).sum

/-- Every card in the game: all draw piles, all hands, and the board. -/
def gameCardsMS (b : Board) : Multiset (String × Nat) :=
  playersMS b.players + (b.cards.map cardPair : Multiset (String × Nat))

/-- The (color, value) pairs of one color's full 18-card list. -/
def poolOf (c : String) : Multiset (String × Nat) :=
  ((listCardFor c).map cardPair : Multiset (String × Nat))

/-- The card pairs supplied by a list of colors. -/
def colorsMS (cs : List String) : Multiset (String × Nat) :=
  ((cs : Multiset String).map poolOf).sum

/-- The card pairs promised by the colors already assigned to players. -/
def colorsOfPlayers (ps : List Player) : Multiset (String × Nat) :=
  (ps.map (fun p => colorsMS p.color)).sum

/-- The index selected by reset's least-often-first rotation. -/
def resetFirstIdx (b : Board) : Nat :=
  playerTurnByNbrFirstPlayerIdx (b.players.map Player.reset) false

/-- The full 72-card pool as (color, value) pairs. -/
def fullPool : Multiset (String × Nat) :=
  ((colorsInit.flatMap listCardFor).map cardPair : Multiset (String × Nat))

/-- Total number of cards in the game. -/
def totalGameCards (b : Board) : Nat := (gameCardsMS b).card

/-- Number of copies of one (color, value) card across the whole game. -/
def pairCount (b : Board) (color : String) (v : Nat) : Nat :=
  (gameCardsMS b).count (color, v)

/-- The per-player fields untouched by card distribution: identity, hand,
points, turn flag and first-player counter (only deck and color change). -/
def sameShape (p q : Player) : Prop :=
  q.pid = p.pid ∧ q.hand = p.hand ∧ q.points = p.points ∧ q.isTurn = p.isTurn ∧
    q.nbrFirstPlayer = p.nbrFirstPlayer

/-! ## Spec-side definitions (formalising the specification's wording, for
comparison with the code-derived definitions above) -/

/-- The visible occupant of a cell: the highest-valued card placed there
(the spec: "series detection below uses the highest-value token per cell"). -/
def topCardAt (cards : List Card) (x y : Int) : Option Card :=
  (cards.filter (fun c => decide (c.x = x ∧ c.y = y))).foldl
    (fun acc c =>
      match acc with
      | Option.none => some c
      | some m => if m.value < c.value then some c else some m)
    Option.none

def dirList : List (Int × Int) := [(1, 0), (0, 1), (1, 1), (1, -1)]

/-- Spec wording of "player p has an aligned run (row, column, or either
diagonal) of `len` consecutive same-color tokens all owned by p": some placed
card starts a window of `len` consecutive cells in one of the four directions
whose visible occupants all share its color and are all owned by `p`. -/
def specHasQualifyingRun (cards : List Card) (p : Nat) (len : Nat) : Bool :=
  cards.any (fun c0 => dirList.any (fun d =>
    (List.range len).all (fun i =>
      match topCardAt cards (c0.x + i * d.1) (c0.y + i * d.2) with
      | some ci => decide (ci.color = c0.color ∧ ci.playedBy = some p)
      | Option.none => false)))

/-- Spec wording of the bounding-box overflow: adding a token at (x, y) makes
`max − min ≥ 6` over all placed tokens (including the new one) on the x or the
y axis. -/
def specBBoxTooWide (cards : List Card) (x y : Int) : Prop :=
  6 ≤ (cards.map (fun c => c.x)).foldl max x - (cards.map (fun c => c.x)).foldl min x
    ∨ 6 ≤ (cards.map (fun c => c.y)).foldl max y - (cards.map (fun c => c.y)).foldl min y

/-! ## Concrete game states used to settle individual claims -/

/-- A card placed at (x, y) by player `p`. -/
def mkPlaced (col : String) (v : Nat) (x y : Int) (p : Nat) : Card :=
  { color := col, value := v, x := x, y := y, playedTurn := 0, playedIn := 0,
    playedBy := some p }

def red3 : Card := { color := "red", value := 3 }

def yellow3 : Card := { color := "yellow", value := 3 }

def yellow4 : Card := { color := "yellow", value := 4 }

/-- Fresh 2-player board for the stacking scenario: player 0 holds a red 3. -/
def scBoard : Board :=
  { cards := [],
    players := [{ pid := 0, name := "A", hand := some red3, isTurn := true },
                { pid := 1, name := "B" }] }

def scBoard1 : Board := (playCard scBoard 0 0 red3 0 0).1

/-- scBoard1 with player 1 holding a yellow 3 (value ≤ 3). -/
def scBoard1le : Board :=
  { scBoard1 with players := scBoard1.players.set 1 { pid := 1, name := "B", hand := some yellow3 } }

/-- scBoard1 with player 1 holding a yellow 4 (value > 3). -/
def scBoard1gt : Board :=
  { scBoard1 with players := scBoard1.players.set 1 { pid := 1, name := "B", hand := some yellow4 } }

/-- A player holding a card and having the turn, making the game blocked. -/
def blockedHolder : Player := { pid := 1, isTurn := true, hand := some yellow3 }

/-- Blocked 2-player board whose only length-3 run belongs to player 0. -/
def oneRunCards : List Card :=
  [mkPlaced "red" 1 0 0 0, mkPlaced "red" 2 1 0 0, mkPlaced "red" 3 2 0 0]

def oneRunBoard : Board := { cards := oneRunCards, players := [{ pid := 0 }, blockedHolder] }

/-- 3-player board where player 0 just completed a horizontal AND a vertical
4-run through (0, 0) with one placement (all red, all owned by player 0). -/
def crossCards : List Card :=
  [mkPlaced "red" 1 0 0 0, mkPlaced "red" 2 1 0 0, mkPlaced "red" 3 2 0 0,
   mkPlaced "red" 4 3 0 0, mkPlaced "red" 5 0 1 0, mkPlaced "red" 6 0 2 0,
   mkPlaced "red" 7 0 3 0]

def crossBoard : Board :=
  { cards := crossCards,
    players := [{ pid := 0, isTurn := true }, { pid := 1 }, { pid := 2 }] }

/-- 2-player board with a single horizontal red 5-run by player 0. -/
def fiveRunBoard : Board :=
  { cards := [mkPlaced "red" 1 0 0 0, mkPlaced "red" 2 1 0 0, mkPlaced "red" 3 2 0 0,
              mkPlaced "red" 4 3 0 0, mkPlaced "red" 5 4 0 0],
    players := [{ pid := 0, isTurn := true }, { pid := 1 }] }

/-- One horizontal red 3-run at height y owned by player 0. -/
def row3At (y : Int) (v0 : Nat) : List Card :=
  [mkPlaced "red" v0 0 y 0, mkPlaced "red" (v0 + 1) 1 y 0, mkPlaced "red" (v0 + 2) 2 y 0]

/-- Blocked 2-player board where player 0 owns five separated length-3 runs
(rows y = −4, −2, 0, 2, 4), triggering the duplicate-winner behaviour of the
tie-break deduplication. -/
def fiveSeriesBoard : Board :=
  { cards := row3At (-4) 1 ++ row3At (-2) 2 ++ row3At 0 3 ++ row3At 2 4 ++ row3At 4 5,
    players := [{ pid := 0 }, blockedHolder] }

/-- Non-empty board with player 1 holding a drawn card, about to be asked for
coordinates. -/
def refusalBoard : Board :=
  { cards := [mkPlaced "red" 3 0 0 0], players := [{ pid := 0 }, blockedHolder] }

/-- Board with a single card at (5, 0), for the bounding-box witness. -/
def bboxBoard : Board :=
  { cards := [mkPlaced "red" 3 5 0 0], players := [{ pid := 0 }, { pid := 1 }] }

/-- Board whose only player has an empty hand. -/
def emptyHandBoard : Board := { cards := [], players := [{ pid := 0 }, { pid := 1 }] }

/-- Two players with distinct nbrFirstPlayer counters, for the reset witness. -/
def resetWitnessBoard : Board :=
  { cards := [mkPlaced "red" 3 0 0 0],
    players := [{ pid := 0, nbrFirstPlayer := 2, points := 3, hand := some red3 },
                { pid := 1, nbrFirstPlayer := 1 }],
    turn := 5, winType := WinType.Win, winners := [0], losers := [1] }

/-! ## Theorems -/

/-- C7: on a fresh 2-player board, playing the value-3 card at (0,0) succeeds;
a subsequent attempt at (0,0) with a value-3 card (value ≤ 3) is rejected with
the placement-illegal status and changes nothing; a subsequent placement at
(0,0) with a value-4 card (value > 3) succeeds by stacking, and the lower card
remains in the board's card list. -/
theorem stacking_scenario :
    (playCard scBoard 0 0 red3 0 0).2 = "The card was successfully placed." ∧
    (playCard scBoard1le 1 0 yellow3 0 0).2 = "The card could not be placed." ∧
    (playCard scBoard1le 1 0 yellow3 0 0).1 = scBoard1le ∧
    (playCard scBoard1gt 1 0 yellow4 0 0).2 = "The card was successfully placed." ∧
    ((playCard scBoard1gt 1 0 yellow4 0 0).1.cards.map cardPair)
      = [("red", 3), ("yellow", 4)] := by decide

/-- C8: playCard on a player with an empty hand returns the no-token-in-hand
status and returns the board completely unchanged (placed cards, players'
decks, hands and points included). -/
theorem playCard_emptyHand (b : Board) (i pt : Nat) (card : Card) (x y : Int)
    (h : (b.players.getD i defaultPlayer).hand = Option.none) :
    playCard b i pt card x y = (b, "The player does not have the card in hand.") := by
  simp only [playCard, Player.cardInHand, h]

/-- Witness for C8 at a concrete empty-handed player. -/
theorem playCard_emptyHand_witness :
    (emptyHandBoard.players.getD 0 defaultPlayer).hand = Option.none ∧
    playCard emptyHandBoard 0 0 red3 0 0
      = (emptyHandBoard, "The player does not have the card in hand.") :=
  ⟨rfl, playCard_emptyHand emptyHandBoard 0 0 red3 0 0 rfl⟩

/-- C2: on a blocked board where exactly one player (player 0) has exactly one
length-3 qualifying run and the other has none, the blocked-game resolution
produces NO winner and checkVictory returns Draw — the tie-break block only
runs for more than one qualifying series, so the claimed sole-winner rule is
not implemented for a single qualifying series. -/
theorem blockedSingleRun_draw :
    specHasQualifyingRun oneRunBoard.cards 0 3 = true ∧
    specHasQualifyingRun oneRunBoard.cards 1 3 = false ∧
    isGameBlocked oneRunBoard = true ∧
    checkVictory oneRunBoard = ⟨WinType.Draw, [], [0, 1]⟩ := by decide

/-- C3 counterexample: on a 3-player board where exactly one player (player 0)
has qualifying aligned runs of length 4 — a row and a column completed by one
placement — and no other player has any, checkVictory does NOT yield Win:
the code requires exactly one qualifying series, and here there are two. -/
theorem crossBoard_noWin :
    specHasQualifyingRun crossBoard.cards 0 4 = true ∧
    specHasQualifyingRun crossBoard.cards 1 4 = false ∧
    specHasQualifyingRun crossBoard.cards 2 4 = false ∧
    crossBoard.nbrPlayers = 3 ∧
    (checkVictory crossBoard).winType ≠ WinType.Win := by decide

/-- C3 (amended): if the scan finds exactly one qualifying series of the
required length (5 for 2 players, 4 otherwise), checkVictory yields Win with
that series' owner as the sole winner and all other players as losers. -/
theorem checkVictory_singleSeries_win (b : Board) (p : Nat)
    (h : (determineSeriesOfCards b (if b.nbrPlayers = 2 then 5 else 4)).filterMap
      (seriesEntry (if b.nbrPlayers = 2 then 5 else 4)) = [p]) :
    checkVictory b
      = ⟨WinType.Win, [p], (allPids b).filter (fun q => !(decide (q = p)))⟩ := by
  simp [checkVictory, hasWinningSeries, h]

/-- Witness for the amended C3 at a concrete 5-run 2-player board. -/
theorem checkVictory_singleSeries_win_witness :
    ((determineSeriesOfCards fiveRunBoard (if fiveRunBoard.nbrPlayers = 2 then 5 else 4)).filterMap
      (seriesEntry (if fiveRunBoard.nbrPlayers = 2 then 5 else 4)) = [0]) ∧
    checkVictory fiveRunBoard
      = ⟨WinType.Win, [0], (allPids fiveRunBoard).filter (fun q => !(decide (q = 0)))⟩ :=
  ⟨by decide, checkVictory_singleSeries_win fiveRunBoard 0 (by decide)⟩

/-- C1 counterexample: a refusal during the coordinate phase on a non-empty
board with the current player holding a drawn card ends the game with outcome
Draw (the blocked-game resolution of checkVictory), not Drop. -/
theorem refusal_notDrop :
    refusalBoard.cards ≠ [] ∧
    refusalBoard.getPlayerTurn = some blockedHolder ∧
    blockedHolder.hand.isSome = true ∧
    coordinatePhase refusalBoard yellow3 [ProviderReply.refuse]
      = some (Sum.inl (doRefusalEnd refusalBoard)) ∧
    (doRefusalEnd refusalBoard).winType = WinType.Draw ∧
    (doRefusalEnd refusalBoard).winType ≠ WinType.Drop := by decide

/-- C10 counterexample: a blocked game in which player 0 owns five length-3
series produces the winners list [0, 0] (the splice-under-forEach
deduplication leaves a duplicate), so the Win outcome increments that
winner's points by 2, not by exactly 1. -/
theorem fiveSeries_doubleWinner :
    (checkVictory fiveSeriesBoard).winType = WinType.Win ∧
    (checkVictory fiveSeriesBoard).winners = [0, 0] ∧
    ((endGame fiveSeriesBoard (checkVictory fiveSeriesBoard).winType
        (checkVictory fiveSeriesBoard).winners (checkVictory fiveSeriesBoard).losers).players.map
      (fun p => (p.pid, p.points))) = [(0, 2), (1, 0)] := by decide

/-! ### C5: occupied cells with ≥ value reject placement -/

theorem avail_mem_free (b : Board) (v : Nat) (c : Int × Int)
    (hc : c ∈ availableCoordinates b v) : candidateFree b v c = true := by
  unfold availableCoordinates at hc
  simp only [List.mem_filter, List.mem_flatMap] at hc
  obtain ⟨⟨cob, _, hmemf⟩, _⟩ := hc
  exact hmemf.2

/-- C5: a placement attempt at a cell already holding a placed card of value
greater than or equal to the new card's value is rejected: cardCanBePlaced is
false and the cell is not among the available coordinates for that value. -/
theorem occupiedGE_rejected (b : Board) (card : Card) (x y : Int)
    (h : ∃ cb ∈ b.cards, cb.x = x ∧ cb.y = y ∧ card.value ≤ cb.value) :
    cardCanBePlaced b card x y = false ∧ (x, y) ∉ availableCoordinates b card.value := by
  have hnot : (x, y) ∉ availableCoordinates b card.value := by
    intro hmem
    have hfree := avail_mem_free b card.value (x, y) hmem
    obtain ⟨cb, hcb, hx, hy, hv⟩ := h
    simp only [candidateFree, Bool.not_eq_true', List.any_eq_false,
      decide_eq_true_eq] at hfree
    exact hfree cb hcb ⟨hx, hy, hv⟩
  refine ⟨?_, hnot⟩
  unfold cardCanBePlaced
  split
  · rfl
  · split
    · rfl
    · split
      · rename_i hemp
        obtain ⟨cb, hcb, _⟩ := h
        rw [Board.boardIsEmpty, List.isEmpty_iff] at hemp
        simp [hemp] at hcb
      · rw [List.any_eq_false]
        intro c hc
        simp only [decide_eq_true_eq]
        intro hcxy
        exact hnot (by rwa [show ((x, y) : Int × Int) = c from (Prod.ext hcxy.1 hcxy.2).symm])

/-- Witness for C5: the occupied (0,0) cell on scBoard1 rejects an
equal-valued card. -/
theorem occupiedGE_rejected_witness :
    (∃ cb ∈ scBoard1.cards, cb.x = 0 ∧ cb.y = 0 ∧ yellow3.value ≤ cb.value) ∧
    cardCanBePlaced scBoard1 yellow3 0 0 = false ∧
    ((0 : Int), (0 : Int)) ∉ availableCoordinates scBoard1 yellow3.value := by
  have h : ∃ cb ∈ scBoard1.cards, cb.x = 0 ∧ cb.y = 0 ∧ yellow3.value ≤ cb.value := by decide
  have hr := occupiedGE_rejected scBoard1 yellow3 0 0 h
  exact ⟨h, hr.1, hr.2⟩

/-! ### C6: the bounding-box cap rejects wide placements -/

theorem iteMax (m v : Int) : (if m < v then v else m) = max m v := by
  rcases lt_or_ge m v with h | h
  · simp [h, max_eq_right h.le]
  · simp [not_lt.mpr h, max_eq_left h]

theorem iteMin (m v : Int) : (if v < m then v else m) = min m v := by
  rcases lt_or_ge v m with h | h
  · simp [h, min_eq_right h.le]
  · simp [not_lt.mpr h, min_eq_left h]

theorem foldl_iteMax (f : Card → Int) (l : List Card) (a : Int) :
    l.foldl (fun m cb => if m < f cb then f cb else m) a
      = l.foldl (fun m cb => max m (f cb)) a := by
  induction l generalizing a with
  | nil => rfl
  | cons c cs ih => simp only [List.foldl_cons, iteMax, ih]

theorem foldl_iteMin (f : Card → Int) (l : List Card) (a : Int) :
    l.foldl (fun m cb => if f cb < m then f cb else m) a
      = l.foldl (fun m cb => min m (f cb)) a := by
  induction l generalizing a with
  | nil => rfl
  | cons c cs ih => simp only [List.foldl_cons, iteMin, ih]

theorem le_foldl_max (f : Card → Int) (l : List Card) (a : Int) :
    a ≤ l.foldl (fun m cb => max m (f cb)) a := by
  induction l generalizing a with
  | nil => exact le_refl a
  | cons c cs ih => exact le_trans (le_max_left a (f c)) (ih (max a (f c)))

theorem foldl_max_of_mem (f : Card → Int) (l : List Card) (a : Int) {c : Card}
    (hc : c ∈ l) : f c ≤ l.foldl (fun m cb => max m (f cb)) a := by
  induction l generalizing a with
  | nil => exact absurd hc (List.not_mem_nil c)
  | cons d ds ih =>
    rcases List.mem_cons.mp hc with rfl | hmem
    · exact le_trans (le_max_right a (f c)) (le_foldl_max f ds (max a (f c)))
    · exact ih (max a (f d)) hmem

theorem foldl_max_le (f : Card → Int) (l : List Card) (a bnd : Int)
    (ha : a ≤ bnd) (hl : ∀ c ∈ l, f c ≤ bnd) :
    l.foldl (fun m cb => max m (f cb)) a ≤ bnd := by
  induction l generalizing a with
  | nil => exact ha
  | cons c cs ih =>
    exact ih (max a (f c)) (max_le ha (hl c (List.mem_cons_self c cs)))
      (fun d hd => hl d (List.mem_cons_of_mem c hd))

theorem foldl_min_le (f : Card → Int) (l : List Card) (a : Int) :
    l.foldl (fun m cb => min m (f cb)) a ≤ a := by
  induction l generalizing a with
  | nil => exact le_refl a
  | cons c cs ih => exact le_trans (ih (min a (f c))) (min_le_left a (f c))

theorem foldl_min_of_mem (f : Card → Int) (l : List Card) (a : Int) {c : Card}
    (hc : c ∈ l) : l.foldl (fun m cb => min m (f cb)) a ≤ f c := by
  induction l generalizing a with
  | nil => exact absurd hc (List.not_mem_nil c)
  | cons d ds ih =>
    rcases List.mem_cons.mp hc with rfl | hmem
    · exact le_trans (foldl_min_le f ds (min a (f c))) (min_le_right a (f c))
    · exact ih (min a (f d)) hmem

theorem le_foldl_min (f : Card → Int) (l : List Card) (a bnd : Int)
    (ha : bnd ≤ a) (hl : ∀ c ∈ l, bnd ≤ f c) :
    bnd ≤ l.foldl (fun m cb => min m (f cb)) a := by
  induction l generalizing a with
  | nil => exact ha
  | cons c cs ih =>
    exact ih (min a (f c)) (le_min ha (hl c (List.mem_cons_self c cs)))
      (fun d hd => hl d (List.mem_cons_of_mem c hd))

/-- If adding (x, y) makes the true bounding box of the placed cards reach
extent 6 on some axis, lineExceedsLimit reports an overflow (its origin-based
extremes can only widen the reported box). -/
theorem lineExceeds_of_bbox (b : Board) (x y : Int)
    (h : specBBoxTooWide b.cards x y) : lineExceedsLimit b (x, y) 6 = true := by
  unfold specBBoxTooWide at h
  rw [List.foldl_map, List.foldl_map, List.foldl_map, List.foldl_map] at h
  unfold lineExceedsLimit
  simp only [foldl_iteMax, foldl_iteMin, iteMax, iteMin]
  set eMx := b.cards.foldl (fun m cb => max m cb.x) 0 with hMx
  set emx := b.cards.foldl (fun m cb => min m cb.x) 0 with hmx
  set eMy := b.cards.foldl (fun m cb => max m cb.y) 0 with hMy
  set emy := b.cards.foldl (fun m cb => min m cb.y) 0 with hmy
  have hsecond : 6 ≤ max eMx x - min emx x ∨ 6 ≤ max eMy y - min emy y := by
    rcases h with h | h
    · left
      have h1 : b.cards.foldl (fun m cb => max m cb.x) x ≤ max eMx x :=
        foldl_max_le (fun c => c.x) b.cards x (max eMx x) (le_max_right _ _)
          (fun c hc => le_trans (foldl_max_of_mem (fun c => c.x) b.cards 0 hc)
            (le_max_left _ _))
      have h2 : min emx x ≤ b.cards.foldl (fun m cb => min m cb.x) x :=
        le_foldl_min (fun c => c.x) b.cards x (min emx x) (min_le_right _ _)
          (fun c hc => le_trans (min_le_left _ _)
            (foldl_min_of_mem (fun c => c.x) b.cards 0 hc))
      omega
    · right
      have h1 : b.cards.foldl (fun m cb => max m cb.y) y ≤ max eMy y :=
        foldl_max_le (fun c => c.y) b.cards y (max eMy y) (le_max_right _ _)
          (fun c hc => le_trans (foldl_max_of_mem (fun c => c.y) b.cards 0 hc)
            (le_max_left _ _))
      have h2 : min emy y ≤ b.cards.foldl (fun m cb => min m cb.y) y :=
        le_foldl_min (fun c => c.y) b.cards y (min emy y) (min_le_right _ _)
          (fun c hc => le_trans (min_le_left _ _)
            (foldl_min_of_mem (fun c => c.y) b.cards 0 hc))
      omega
  by_cases hfirst : 6 ≤ eMx - emx ∨ 6 ≤ eMy - emy
  · simp [hfirst]
  · simp [hfirst, hsecond]

/-- C6: an in-bound placement whose addition would make the bounding box of
all placed tokens reach an extent of 6 or more on the x or y axis is rejected
by cardCanBePlaced and excluded from availableCoordinates (for every card
value). -/
theorem bbox_rejected (b : Board) (card : Card) (x y : Int)
    (hx : -5 ≤ x ∧ x ≤ 5) (hy : -5 ≤ y ∧ y ≤ 5)
    (hbb : specBBoxTooWide b.cards x y) :
    cardCanBePlaced b card x y = false ∧ ∀ v, (x, y) ∉ availableCoordinates b v := by
  have hline := lineExceeds_of_bbox b x y hbb
  constructor
  · have hb : ¬(5 < x ∨ x < -5 ∨ 5 < y ∨ y < -5) := by omega
    simp [cardCanBePlaced, hb, hline]
  · intro v hmem
    unfold availableCoordinates at hmem
    simp only [List.mem_filter, hline] at hmem
    exact absurd hmem.2 (by simp)

/-- Witness for C6: with a single card at (5, 0), placing at (−1, 0) stretches
the box to extent 6 and is rejected. -/
theorem bbox_rejected_witness :
    ((-5 : Int) ≤ -1 ∧ (-1 : Int) ≤ 5) ∧ specBBoxTooWide bboxBoard.cards (-1) 0 ∧
    cardCanBePlaced bboxBoard red3 (-1) 0 = false ∧
    (((-1 : Int), (0 : Int)) ∉ availableCoordinates bboxBoard 3) := by
  have hbb : specBBoxTooWide bboxBoard.cards (-1) 0 := by
    unfold specBBoxTooWide
    decide
  have hr := bbox_rejected bboxBoard red3 (-1) 0 (by omega) (by omega) hbb
  exact ⟨by omega, hbb, hr.1, hr.2 3⟩

/-! ### C1 (amended): a refusal ends the game through checkVictory -/

theorem endGame_winType (b : Board) (wt : WinType) (ws ls : List Nat) :
    (endGame b wt ws ls).winType = wt := by
  unfold endGame
  split <;> rfl

theorem endGame_winners (b : Board) (wt : WinType) (ws ls : List Nat) :
    (endGame b wt ws ls).winners = ws := by
  unfold endGame
  split <;> rfl

theorem endGame_losers (b : Board) (wt : WinType) (ws ls : List Nat) :
    (endGame b wt ws ls).losers = ls := by
  unfold endGame
  split <;> rfl

theorem isGameBlocked_of_holder (b : Board) (p : Player)
    (h1 : b.getPlayerTurn = some p) (h2 : p.hand.isSome = true) :
    isGameBlocked b = true := by
  unfold isGameBlocked
  split
  · rfl
  · rw [h1]
    exact h2

/-- With the current player still holding a card, checkVictory never settles
on None (or Drop): either a run wins, or the blocked-game resolution returns
Win or Draw. -/
theorem checkVictory_blocked_winType (b : Board) (p : Player)
    (h1 : b.getPlayerTurn = some p) (h2 : p.hand.isSome = true) :
    (checkVictory b).winType = WinType.Win ∨ (checkVictory b).winType = WinType.Draw := by
  have hbl := isGameBlocked_of_holder b p h1 h2
  unfold checkVictory
  cases hW : hasWinningSeries b (if b.nbrPlayers = 2 then 5 else 4) with
  | some w => exact Or.inl rfl
  | none =>
    simp only [hbl, if_true]
    by_cases hz : (determineWinnerForBlockedGame b).length = 0
    · simp [hz]
    · simp [hz]

/-- C1 (amended): when the coordinate phase of a player's step ends because
the provider refused (or the auto pick found nothing), the resulting board is
endGame applied to checkVictory's result at that moment — outcome Win or Draw
via the blocked-game resolution (the current player still holds the drawn
card), with checkVictory's winners and losers, never a fixed Drop ending. -/
theorem coordinatePhase_refusal (b : Board) (card : Card)
    (replies : List ProviderReply) (b' : Board)
    (hp : ∃ p, b.getPlayerTurn = some p ∧ p.hand.isSome = true)
    (hres : coordinatePhase b card replies = some (Sum.inl b')) :
    b' = doRefusalEnd b ∧ b'.winType = (checkVictory b).winType ∧
    b'.winners = (checkVictory b).winners ∧ b'.losers = (checkVictory b).losers ∧
    (b'.winType = WinType.Win ∨ b'.winType = WinType.Draw) := by
  have hb' : b' = doRefusalEnd b := by
    induction replies with
    | nil => exact absurd hres (by simp [coordinatePhase])
    | cons r rest ih =>
      unfold coordinatePhase at hres
      rcases r with x | rnd | _
      · dsimp only at hres
        split at hres
        · exact absurd hres (by simp)
        · exact ih hres
      · dsimp only at hres
        rcases hdc : determineCardCoordinates rnd b card.value with _ | ⟨cx, cy⟩
        · rw [hdc] at hres
          injection hres with h1
          injection h1 with h2
          exact h2.symm
        · rw [hdc] at hres
          dsimp only at hres
          split at hres
          · exact absurd hres (by simp)
          · exact ih hres
      · dsimp only at hres
        injection hres with h1
        injection h1 with h2
        exact h2.symm
  obtain ⟨p, hp1, hp2⟩ := hp
  subst hb'
  refine ⟨rfl, ?_, ?_, ?_, ?_⟩
  · exact endGame_winType b _ _ _
  · exact endGame_winners b _ _ _
  · exact endGame_losers b _ _ _
  · have h5 : (doRefusalEnd b).winType = (checkVictory b).winType := endGame_winType b _ _ _
    rw [h5]
    exact checkVictory_blocked_winType b p hp1 hp2

/-- Witness for the amended C1 at the concrete refusal board. -/
theorem coordinatePhase_refusal_witness :
    doRefusalEnd refusalBoard = doRefusalEnd refusalBoard ∧
    (doRefusalEnd refusalBoard).winType = (checkVictory refusalBoard).winType ∧
    (doRefusalEnd refusalBoard).winners = (checkVictory refusalBoard).winners ∧
    (doRefusalEnd refusalBoard).losers = (checkVictory refusalBoard).losers ∧
    ((doRefusalEnd refusalBoard).winType = WinType.Win ∨
      (doRefusalEnd refusalBoard).winType = WinType.Draw) :=
  coordinatePhase_refusal refusalBoard yellow3 [ProviderReply.refuse]
    (doRefusalEnd refusalBoard) ⟨blockedHolder, by decide, by decide⟩ (by decide)

/-! ### C10 (amended): partition of players and point accounting at game end -/

theorem addPointsList_length (players : List Player) (ws : List Nat) :
    (addPointsList players ws).length = players.length := by
  induction ws generalizing players with
  | nil => rfl
  | cons w ws ih =>
    unfold addPointsList
    rw [List.foldl_cons]
    exact (ih _).trans (List.length_map _ _)

theorem addPointsList_eq_map (players : List Player) (ws : List Nat) :
    addPointsList players ws
      = players.map (fun p => { p with points := p.points + ws.count p.pid }) := by
  induction ws generalizing players with
  | nil => exact (List.map_id players).symm
  | cons w ws ih =>
    have hstep : addPointsList players (w :: ws)
        = addPointsList (players.map (fun p => if p.pid = w then p.addPoints 1 else p)) ws := by
      unfold addPointsList
      rw [List.foldl_cons]
    rw [hstep, ih, List.map_map]
    refine List.map_congr_left (fun p _ => ?_)
    by_cases hpw : p.pid = w
    · have hpts : (p.addPoints 1).points + List.count (p.addPoints 1).pid ws
          = p.points + List.count p.pid (w :: ws) := by
        dsimp only [Player.addPoints]
        simp [List.count_cons, hpw]
        omega
      simp only [Function.comp_apply, if_pos hpw]
      dsimp only [Player.addPoints]
      simp only [List.count_cons, hpw, if_pos rfl]
      have : p.points + 1 + List.count w ws = p.points + (List.count w ws + 1) := by omega
      simp [this]
    · simp only [Function.comp_apply, if_neg hpw]
      have hcnt : List.count p.pid (w :: ws) = List.count p.pid ws := by
        simp [List.count_cons, hpw]
      rw [hcnt]

theorem addPointsList_getD (players : List Player) (ws : List Nat) (i : Nat)
    (h : i < players.length) :
    ((addPointsList players ws).getD i defaultPlayer).points
        = (players.getD i defaultPlayer).points
          + ws.count (players.getD i defaultPlayer).pid ∧
    ((addPointsList players ws).getD i defaultPlayer).pid
        = (players.getD i defaultPlayer).pid := by
  rw [addPointsList_eq_map, List.getD_eq_getElem _ _ (by simpa using h),
    List.getD_eq_getElem _ _ h, List.getElem_map]
  exact ⟨rfl, rfl⟩

theorem endGame_points (b : Board) (wt : WinType) (ws ls : List Nat) (i : Nat)
    (h : i < b.players.length) :
    ((endGame b wt ws ls).players.getD i defaultPlayer).points
      = (b.players.getD i defaultPlayer).points
        + (if wt = WinType.Win then ws.count (b.players.getD i defaultPlayer).pid else 0) := by
  unfold endGame
  split
  · rename_i hwt
    simp only [hwt, if_true]
    exact (addPointsList_getD b.players ws i h).1
  · rename_i hwt
    simp [hwt]

/-- C10 (amended): whenever the game ends — through endGame applied to a
non-None checkVictory result, or through the literal Drop ending — winners
and losers are disjoint and together cover every player; on a Win outcome a
player's points grow by the number of its occurrences in the winners list
(one for run-based wins, but possibly two from the blocked-game tie-break
deduplication); on Draw and Drop no points change. -/
theorem endGame_partition (b : Board) (wt : WinType) (ws ls : List Nat)
    (h : (checkVictory b = ⟨wt, ws, ls⟩ ∧ wt ≠ WinType.None) ∨
         (wt = WinType.Drop ∧ ws = [] ∧ ls = allPids b)) :
    (∀ q, q ∈ (endGame b wt ws ls).winners → q ∉ (endGame b wt ws ls).losers) ∧
    (∀ q ∈ allPids b, q ∈ (endGame b wt ws ls).winners ∨ q ∈ (endGame b wt ws ls).losers) ∧
    (∀ i, i < b.players.length →
      ((endGame b wt ws ls).players.getD i defaultPlayer).points
        = (b.players.getD i defaultPlayer).points
          + (if wt = WinType.Win then ws.count (b.players.getD i defaultPlayer).pid else 0)) := by
  have hkey : ∀ q, q ∈ ls ↔ (q ∈ allPids b ∧ q ∉ ws) := by
    rcases h with ⟨hcv, hne⟩ | ⟨hwt, hws, hls⟩
    · unfold checkVictory at hcv
      cases hW : hasWinningSeries b (if b.nbrPlayers = 2 then 5 else 4) with
      | some w =>
        rw [hW] at hcv
        injection hcv with h1 h2 h3
        subst h2
        subst h3
        intro q
        simp [List.mem_filter]
      | none =>
        rw [hW] at hcv
        by_cases hbl : isGameBlocked b = true
        · rw [if_pos hbl] at hcv
          injection hcv with h1 h2 h3
          subst h2
          subst h3
          intro q
          simp [List.mem_filter, List.contains_eq_any_beq]
        · rw [if_neg hbl] at hcv
          injection hcv with h1 h2 h3
          exact absurd h1.symm hne
    · subst hws
      subst hls
      intro q
      simp
  rw [endGame_winners, endGame_losers]
  refine ⟨?_, ?_, fun i hi => endGame_points b wt ws ls i hi⟩
  · intro q hq hql
    exact ((hkey q).mp hql).2 hq
  · intro q hq
    by_cases hqw : q ∈ ws
    · exact Or.inl hqw
    · exact Or.inr ((hkey q).mpr ⟨hq, hqw⟩)

/-- Witness for the amended C10: the Drop ending on a concrete board leaves
player 0's points unchanged. -/
theorem endGame_partition_witness :
    ((endGame emptyHandBoard WinType.Drop [] (allPids emptyHandBoard)).players.getD 0
        defaultPlayer).points
      = (emptyHandBoard.players.getD 0 defaultPlayer).points
        + (if WinType.Drop = WinType.Win then
            ([] : List Nat).count (emptyHandBoard.players.getD 0 defaultPlayer).pid
          else 0) :=
  (endGame_partition emptyHandBoard WinType.Drop [] (allPids emptyHandBoard)
    (Or.inr ⟨rfl, rfl, rfl⟩)).2.2 0 (by decide)

/-! ### C9: reset -/

theorem sameShape_refl (p : Player) : sameShape p p := ⟨rfl, rfl, rfl, rfl, rfl⟩

theorem sameShape_trans {p q r : Player} (h1 : sameShape p q) (h2 : sameShape q r) :
    sameShape p r :=
  ⟨h2.1.trans h1.1, h2.2.1.trans h1.2.1, h2.2.2.1.trans h1.2.2.1,
   h2.2.2.2.1.trans h1.2.2.2.1, h2.2.2.2.2.trans h1.2.2.2.2⟩

theorem getD_mem_of_lt {α : Type} (l : List α) (i : Nat) (d : α) (h : i < l.length) :
    l.getD i d ∈ l := by
  rw [List.getD_eq_getElem l d h]
  exact List.getElem_mem h

theorem fillDeck_shape (rand : List Nat) (p : Player) (cards : List Card) :
    sameShape p (fillDeck rand p cards).1 := ⟨rfl, rfl, rfl, rfl, rfl⟩

theorem fillColors_shape (rand : List Nat) (p : Player) (cs : List String) :
    sameShape p (fillColors rand p cs).1 := by
  induction cs generalizing rand p with
  | nil => exact sameShape_refl p
  | cons c cs ih =>
    exact sameShape_trans (fillDeck_shape rand p (listCardFor c)) (ih _ _)

theorem d2go_spec (rand : List Nat) (colors : List String) (ps : List Player) :
    (d2go rand colors ps).1.length = ps.length ∧
    ∀ i, i < ps.length →
      sameShape (ps.getD i defaultPlayer) ((d2go rand colors ps).1.getD i defaultPlayer) := by
  induction ps generalizing rand colors with
  | nil => exact ⟨rfl, fun i hi => absurd hi (by simp)⟩
  | cons p ps ih =>
    unfold d2go
    refine ⟨by simp [(ih _ _).1], fun i hi => ?_⟩
    cases i with
    | zero =>
      simp only [List.getD_cons_zero]
      exact sameShape_trans (sameShape_refl p) (fillColors_shape _ _ _)
    | succ i =>
      simp only [List.getD_cons_succ]
      exact (ih _ _).2 i (by simp at hi; omega)

theorem d3assign_spec (rand : List Nat) (colors : List String) (ps : List Player) :
    (d3assign rand colors ps).1.length = ps.length ∧
    ∀ i, i < ps.length →
      sameShape (ps.getD i defaultPlayer) ((d3assign rand colors ps).1.getD i defaultPlayer) := by
  induction ps generalizing rand colors with
  | nil => exact ⟨rfl, fun i hi => absurd hi (by simp)⟩
  | cons p ps ih =>
    unfold d3assign
    refine ⟨by simp [(ih _ _).1], fun i hi => ?_⟩
    cases i with
    | zero => exact sameShape_refl _
    | succ i =>
      simp only [List.getD_cons_succ]
      exact (ih _ _).2 i (by simp at hi; omega)

theorem d3fill_spec (rand : List Nat) (pool : List Card) (ps : List Player) :
    (d3fill rand pool ps).1.length = ps.length ∧
    ∀ i, i < ps.length →
      sameShape (ps.getD i defaultPlayer) ((d3fill rand pool ps).1.getD i defaultPlayer) := by
  induction ps generalizing rand pool with
  | nil => exact ⟨rfl, fun i hi => absurd hi (by simp)⟩
  | cons p ps ih =>
    unfold d3fill
    refine ⟨by simp [(ih _ _).1], fun i hi => ?_⟩
    cases i with
    | zero =>
      simp only [List.getD_cons_zero]
      exact sameShape_trans (fillColors_shape _ _ _) (fillDeck_shape _ _ _)
    | succ i =>
      simp only [List.getD_cons_succ]
      exact (ih _ _).2 i (by simp at hi; omega)

theorem d4go_spec (rand : List Nat) (colors : List String) (ps : List Player) :
    (d4go rand colors ps).1.length = ps.length ∧
    ∀ i, i < ps.length →
      sameShape (ps.getD i defaultPlayer) ((d4go rand colors ps).1.getD i defaultPlayer) := by
  induction ps generalizing rand colors with
  | nil => exact ⟨rfl, fun i hi => absurd hi (by simp)⟩
  | cons p ps ih =>
    unfold d4go
    refine ⟨by simp [(ih _ _).1], fun i hi => ?_⟩
    cases i with
    | zero =>
      simp only [List.getD_cons_zero]
      exact sameShape_trans (sameShape_refl p) (fillColors_shape _ _ _)
    | succ i =>
      simp only [List.getD_cons_succ]
      exact (ih _ _).2 i (by simp at hi; omega)

theorem cardDistribution_spec (rand : List Nat) (ps : List Player) :
    (cardDistribution rand ps).length = ps.length ∧
    ∀ i, i < ps.length →
      sameShape (ps.getD i defaultPlayer) ((cardDistribution rand ps).getD i defaultPlayer) := by
  unfold cardDistribution
  by_cases h2 : ps.length = 2
  · rw [if_pos h2]
    exact d2go_spec rand colorsInit ps
  · rw [if_neg h2]
    by_cases h3 : ps.length = 3
    · rw [if_pos h3]
      have ha := d3assign_spec rand colorsInit ps
      have hf := d3fill_spec (d3assign rand colorsInit ps).2.2
        (listCardFor ((d3assign rand colorsInit ps).2.1.headD "")) (d3assign rand colorsInit ps).1
      refine ⟨hf.1.trans ha.1, fun i hi => ?_⟩
      exact sameShape_trans (ha.2 i hi) (hf.2 i (by omega))
    · rw [if_neg h3]
      exact d4go_spec rand colorsInit ps

theorem turnIdxGo_min (l : List Player) : ∀ (bi i v : Nat),
    (turnIdxGo false bi (some v) i l = bi ∧ ∀ p ∈ l, v ≤ p.nbrFirstPlayer) ∨
    (∃ j, j < l.length ∧ turnIdxGo false bi (some v) i l = i + j ∧
      (l.getD j defaultPlayer).nbrFirstPlayer < v ∧
      ∀ p ∈ l, (l.getD j defaultPlayer).nbrFirstPlayer ≤ p.nbrFirstPlayer) := by
  induction l with
  | nil => exact fun bi i v => Or.inl ⟨rfl, fun p hp => absurd hp (List.not_mem_nil p)⟩
  | cons p ps ih =>
    intro bi i v
    by_cases hlt : p.nbrFirstPlayer < v
    · have hstep : turnIdxGo false bi (some v) i (p :: ps)
          = turnIdxGo false i (some p.nbrFirstPlayer) (i + 1) ps := by
        simp [turnIdxGo, hlt]
      rcases ih i (i + 1) p.nbrFirstPlayer with ⟨heq, hall⟩ | ⟨j, hj, heq, hlt2, hall⟩
      · refine Or.inr ⟨0, by simp, by rw [hstep, heq]; omega, ?_, ?_⟩
        · simpa using hlt
        · intro q hq
          rcases List.mem_cons.mp hq with rfl | hmem
          · simp
          · simpa using hall q hmem
      · refine Or.inr ⟨j + 1, by simpa using hj, by rw [hstep, heq]; omega, ?_, ?_⟩
        · rw [List.getD_cons_succ]
          omega
        · intro q hq
          rcases List.mem_cons.mp hq with rfl | hmem
          · rw [List.getD_cons_succ]
            omega
          · rw [List.getD_cons_succ]
            exact hall q hmem
    · have hstep : turnIdxGo false bi (some v) i (p :: ps)
          = turnIdxGo false bi (some v) (i + 1) ps := by
        simp [turnIdxGo, hlt]
      rcases ih bi (i + 1) v with ⟨heq, hall⟩ | ⟨j, hj, heq, hlt2, hall⟩
      · refine Or.inl ⟨hstep.trans heq, fun q hq => ?_⟩
        rcases List.mem_cons.mp hq with rfl | hmem
        · omega
        · exact hall q hmem
      · refine Or.inr ⟨j + 1, by simpa using hj, by rw [hstep, heq]; omega, ?_, ?_⟩
        · rw [List.getD_cons_succ]
          exact hlt2
        · intro q hq
          rcases List.mem_cons.mp hq with rfl | hmem
          · rw [List.getD_cons_succ]
            omega
          · rw [List.getD_cons_succ]
            exact hall q hmem

/-- playerTurnByNbrFirstPlayer (byMax = false) picks a valid index holding a
minimal nbrFirstPlayer counter. -/
theorem turnIdx_min (l : List Player) (hne : l ≠ []) :
    playerTurnByNbrFirstPlayerIdx l false < l.length ∧
    ∀ j, j < l.length →
      (l.getD (playerTurnByNbrFirstPlayerIdx l false) defaultPlayer).nbrFirstPlayer
        ≤ (l.getD j defaultPlayer).nbrFirstPlayer := by
  cases l with
  | nil => exact absurd rfl hne
  | cons p ps =>
    have hstep : playerTurnByNbrFirstPlayerIdx (p :: ps) false
        = turnIdxGo false 0 (some p.nbrFirstPlayer) 1 ps := by
      simp [playerTurnByNbrFirstPlayerIdx, turnIdxGo]
    rcases turnIdxGo_min ps 0 1 p.nbrFirstPlayer with ⟨heq, hall⟩ | ⟨j, hj, heq, hlt2, hall⟩
    · rw [hstep, heq]
      refine ⟨by simp, fun j hj => ?_⟩
      cases j with
      | zero => simp
      | succ j =>
        simp only [List.getD_cons_zero, List.getD_cons_succ]
        exact hall (ps.getD j defaultPlayer) (getD_mem_of_lt ps j defaultPlayer (by simpa using hj))
    · rw [hstep, heq]
      have h1j : 1 + j = j + 1 := by omega
      rw [h1j]
      refine ⟨by simpa using hj, fun k hk => ?_⟩
      cases k with
      | zero =>
        simp only [List.getD_cons_zero, List.getD_cons_succ]
        omega
      | succ k =>
        simp only [List.getD_cons_succ]
        exact hall (ps.getD k defaultPlayer) (getD_mem_of_lt ps k defaultPlayer (by simpa using hk))

/-- C9: reset leaves zero placed cards, turn 0, outcome None, every player
with score 0 and empty hand; exactly one player — one holding a minimal
nbrFirstPlayer among all players — has its counter incremented (so counters
never decrease) and is given the turn. -/
theorem reset_spec (b : Board) (rand : List Nat) (hne : b.players ≠ []) :
    (Board.reset rand b).cards = [] ∧ (Board.reset rand b).turn = 0 ∧
    (Board.reset rand b).winType = WinType.None ∧
    (Board.reset rand b).players.length = b.players.length ∧
    (∀ i, i < b.players.length →
      ((Board.reset rand b).players.getD i defaultPlayer).points = 0 ∧
      ((Board.reset rand b).players.getD i defaultPlayer).hand = Option.none) ∧
    resetFirstIdx b < b.players.length ∧
    (∀ j, j < b.players.length →
      (b.players.getD (resetFirstIdx b) defaultPlayer).nbrFirstPlayer
        ≤ (b.players.getD j defaultPlayer).nbrFirstPlayer) ∧
    ((Board.reset rand b).players.getD (resetFirstIdx b) defaultPlayer).nbrFirstPlayer
      = (b.players.getD (resetFirstIdx b) defaultPlayer).nbrFirstPlayer + 1 ∧
    ((Board.reset rand b).players.getD (resetFirstIdx b) defaultPlayer).isTurn = true ∧
    (∀ j, j < b.players.length → j ≠ resetFirstIdx b →
      ((Board.reset rand b).players.getD j defaultPlayer).nbrFirstPlayer
        = (b.players.getD j defaultPlayer).nbrFirstPlayer) := by
  have hmapne : b.players.map Player.reset ≠ [] := by
    simpa using hne
  have hmin := turnIdx_min (b.players.map Player.reset) hmapne
  have hlen1 : (b.players.map Player.reset).length = b.players.length := List.length_map _ _
  have hi0 : resetFirstIdx b < b.players.length := by
    rw [resetFirstIdx]
    omega
  have hgetmap : ∀ j, j < b.players.length →
      (b.players.map Player.reset).getD j defaultPlayer
        = Player.reset (b.players.getD j defaultPlayer) := by
    intro j hj
    rw [List.getD_eq_getElem _ _ (by omega), List.getD_eq_getElem _ _ hj, List.getElem_map]
  -- shorthand for the post-rotation players list fed to the distribution
  have hplayers : (Board.reset rand b).players
      = cardDistribution rand
          ((b.players.map Player.reset).set (resetFirstIdx b)
            { (b.players.map Player.reset).getD (resetFirstIdx b) defaultPlayer with
                isTurn := true,
                nbrFirstPlayer :=
                  ((b.players.map Player.reset).getD (resetFirstIdx b)
                      defaultPlayer).nbrFirstPlayer + 1 }) := rfl
  have hlen2 : ((b.players.map Player.reset).set (resetFirstIdx b)
      { (b.players.map Player.reset).getD (resetFirstIdx b) defaultPlayer with
          isTurn := true,
          nbrFirstPlayer :=
            ((b.players.map Player.reset).getD (resetFirstIdx b)
                defaultPlayer).nbrFirstPlayer + 1 }).length = b.players.length := by
    rw [List.length_set]
    exact hlen1
  have hdist := cardDistribution_spec rand
    ((b.players.map Player.reset).set (resetFirstIdx b)
      { (b.players.map Player.reset).getD (resetFirstIdx b) defaultPlayer with
          isTurn := true,
          nbrFirstPlayer :=
            ((b.players.map Player.reset).getD (resetFirstIdx b)
                defaultPlayer).nbrFirstPlayer + 1 })
  -- the value of the rotated list at each index
  have hset : ∀ j, j < b.players.length →
      ((b.players.map Player.reset).set (resetFirstIdx b)
        { (b.players.map Player.reset).getD (resetFirstIdx b) defaultPlayer with
            isTurn := true,
            nbrFirstPlayer :=
              ((b.players.map Player.reset).getD (resetFirstIdx b)
                  defaultPlayer).nbrFirstPlayer + 1 }).getD j defaultPlayer
      = (if j = resetFirstIdx b then
          { (b.players.map Player.reset).getD (resetFirstIdx b) defaultPlayer with
              isTurn := true,
              nbrFirstPlayer :=
                ((b.players.map Player.reset).getD (resetFirstIdx b)
                    defaultPlayer).nbrFirstPlayer + 1 }
         else Player.reset (b.players.getD j defaultPlayer)) := by
    intro j hj
    by_cases hji : j = resetFirstIdx b
    · subst hji
      rw [if_pos rfl, List.getD_eq_getElem _ _ (by rw [List.length_set]; omega)]
      exact List.getElem_set_self _
    · rw [if_neg hji, List.getD_eq_getElem _ _ (by rw [List.length_set]; omega),
        List.getElem_set_ne (fun h => hji h.symm), List.getElem_map,
        List.getD_eq_getElem b.players defaultPlayer hj]
  have hshape : ∀ j, j < b.players.length →
      sameShape
        (((b.players.map Player.reset).set (resetFirstIdx b)
          { (b.players.map Player.reset).getD (resetFirstIdx b) defaultPlayer with
              isTurn := true,
              nbrFirstPlayer :=
                ((b.players.map Player.reset).getD (resetFirstIdx b)
                    defaultPlayer).nbrFirstPlayer + 1 }).getD j defaultPlayer)
        ((Board.reset rand b).players.getD j defaultPlayer) := by
    intro j hj
    rw [hplayers]
    exact hdist.2 j (by omega)
  refine ⟨rfl, rfl, rfl, ?_, ?_, hi0, ?_, ?_, ?_, ?_⟩
  · rw [hplayers, hdist.1, hlen2]
  · intro i hi
    have hs := hshape i hi
    rw [hset i hi] at hs
    by_cases hii : i = resetFirstIdx b
    · rw [if_pos hii] at hs
      refine ⟨hs.2.2.1.trans ?_, hs.2.1.trans ?_⟩
      · rw [hgetmap (resetFirstIdx b) hi0]
        rfl
      · rw [hgetmap (resetFirstIdx b) hi0]
        rfl
    · rw [if_neg hii] at hs
      exact ⟨hs.2.2.1, hs.2.1⟩
  · intro j hj
    have hridx : playerTurnByNbrFirstPlayerIdx (List.map Player.reset b.players) false
        = resetFirstIdx b := rfl
    have := hmin.2 j (by omega)
    rw [hridx, hgetmap j hj, hgetmap (resetFirstIdx b) hi0] at this
    exact this
  · have hs := hshape (resetFirstIdx b) hi0
    rw [hset (resetFirstIdx b) hi0, if_pos rfl] at hs
    rw [hs.2.2.2.2]
    rw [hgetmap (resetFirstIdx b) hi0]
    rfl
  · have hs := hshape (resetFirstIdx b) hi0
    rw [hset (resetFirstIdx b) hi0, if_pos rfl] at hs
    rw [hs.2.2.2.1]
  · intro j hj hji
    have hs := hshape j hj
    rw [hset j hj, if_neg hji] at hs
    rw [hs.2.2.2.2]
    rfl

/-- Witness for C9 at a concrete 2-player board. -/
theorem reset_spec_witness :
    (Board.reset [] resetWitnessBoard).cards = [] ∧
    (Board.reset [] resetWitnessBoard).turn = 0 ∧
    (Board.reset [] resetWitnessBoard).winType = WinType.None ∧
    (Board.reset [] resetWitnessBoard).players.length = resetWitnessBoard.players.length ∧
    (∀ i, i < resetWitnessBoard.players.length →
      ((Board.reset [] resetWitnessBoard).players.getD i defaultPlayer).points = 0 ∧
      ((Board.reset [] resetWitnessBoard).players.getD i defaultPlayer).hand = Option.none) ∧
    resetFirstIdx resetWitnessBoard < resetWitnessBoard.players.length ∧
    (∀ j, j < resetWitnessBoard.players.length →
      (resetWitnessBoard.players.getD (resetFirstIdx resetWitnessBoard)
          defaultPlayer).nbrFirstPlayer
        ≤ (resetWitnessBoard.players.getD j defaultPlayer).nbrFirstPlayer) ∧
    ((Board.reset [] resetWitnessBoard).players.getD (resetFirstIdx resetWitnessBoard)
        defaultPlayer).nbrFirstPlayer
      = (resetWitnessBoard.players.getD (resetFirstIdx resetWitnessBoard)
          defaultPlayer).nbrFirstPlayer + 1 ∧
    ((Board.reset [] resetWitnessBoard).players.getD (resetFirstIdx resetWitnessBoard)
        defaultPlayer).isTurn = true ∧
    (∀ j, j < resetWitnessBoard.players.length → j ≠ resetFirstIdx resetWitnessBoard →
      ((Board.reset [] resetWitnessBoard).players.getD j defaultPlayer).nbrFirstPlayer
        = (resetWitnessBoard.players.getD j defaultPlayer).nbrFirstPlayer) :=
  reset_spec resetWitnessBoard [] (by decide)

/-! ### C4: conservation of the 72 cards -/

theorem multiset_set_add (l : List Card) (n : Nat) (a : Card) (h : n < l.length) :
    ((l.set n a : List Card) : Multiset Card) + {l[n]} = (l : Multiset Card) + {a} := by
  rw [List.set_eq_take_cons_drop a h]
  conv_rhs => rw [← List.take_append_drop n l, ← List.getElem_cons_drop l n h]
  rw [← Multiset.coe_add, ← Multiset.coe_add, ← Multiset.cons_coe, ← Multiset.cons_coe,
    ← Multiset.singleton_add, ← Multiset.singleton_add]
  abel

theorem swapIdx_ms (l : List Card) (i j : Nat) (hi : i < l.length) (hj : j < l.length) :
    ((swapIdx l i j : List Card) : Multiset Card) = (l : Multiset Card) := by
  unfold swapIdx
  rw [List.getD_eq_getElem l defaultCard hi, List.getD_eq_getElem l defaultCard hj]
  have h1 : j < (l.set i (l[j])).length := by simpa using hj
  have hsj : (l.set i (l[j]))[j] = l[j] := by
    rw [List.getElem_set]
    split <;> rfl
  have e1 := multiset_set_add l i (l[j]) hi
  have e2 := multiset_set_add (l.set i (l[j])) j (l[i]) h1
  rw [hsj] at e2
  have : (((l.set i l[j]).set j l[i] : List Card) : Multiset Card) + {l[j]}
      = (l : Multiset Card) + {l[j]} := by
    rw [e2, e1]
  exact add_right_cancel this

theorem fyGo_ms (k : Nat) : ∀ (rand : List Nat) (deck : List Card), k < deck.length →
    ((fyGo rand deck k).1 : Multiset Card) = ↑deck ∧
    (fyGo rand deck k).1.length = deck.length := by
  induction k with
  | zero => exact fun rand deck _ => ⟨rfl, rfl⟩
  | succ k ih =>
    intro rand deck h
    have hj : (takeRand rand).1 % (k + 2) < deck.length := by
      have := Nat.mod_lt (takeRand rand).1 (show 0 < k + 2 by omega)
      omega
    have hswlen : (swapIdx deck (k + 1) ((takeRand rand).1 % (k + 2))).length = deck.length := by
      unfold swapIdx
      simp
    have hrec := ih (takeRand rand).2 (swapIdx deck (k + 1) ((takeRand rand).1 % (k + 2)))
      (by omega)
    exact ⟨hrec.1.trans (swapIdx_ms deck (k + 1) _ h hj), hrec.2.trans hswlen⟩

theorem shuffleDeck_ms (rand : List Nat) (deck : List Card) :
    ((shuffleDeck rand deck).1 : Multiset Card) = ↑deck ∧
    (shuffleDeck rand deck).1.length = deck.length := by
  unfold shuffleDeck
  rcases deck with _ | ⟨c, cs⟩
  · exact ⟨rfl, rfl⟩
  · exact fyGo_ms ((c :: cs).length - 1) rand (c :: cs) (by simp)

theorem pickRemove_ms {α : Type} [DecidableEq α] (l : List α) (r : Nat) (d : α) (h : l ≠ []) :
    (pickRemove l r d).1 ::ₘ ((pickRemove l r d).2 : Multiset α) = (l : Multiset α) ∧
    (pickRemove l r d).2.length + 1 = l.length := by
  have hlen : 0 < l.length := List.length_pos.mpr h
  have hmod : r % l.length < l.length := Nat.mod_lt _ hlen
  have hmem : l.getD (r % l.length) d ∈ l := getD_mem_of_lt l _ d hmod
  unfold pickRemove
  constructor
  · rw [Multiset.cons_coe, Multiset.coe_eq_coe]
    exact (List.perm_cons_erase hmem).symm
  · exact List.length_erase_add_one hmem

theorem colorsMS_nil : colorsMS [] = 0 := rfl

theorem colorsMS_of_cons_eq (c : String) (l1 l2 : List String)
    (h : c ::ₘ (l1 : Multiset String) = (l2 : Multiset String)) :
    colorsMS l2 = poolOf c + colorsMS l1 := by
  unfold colorsMS
  rw [← h, Multiset.map_cons, Multiset.sum_cons]

theorem colorsMS_singleton (c : String) : colorsMS [c] = poolOf c := by
  have : colorsMS [c] = poolOf c + colorsMS [] :=
    colorsMS_of_cons_eq c [] [c] rfl
  rw [this, colorsMS_nil, add_zero]

theorem colorsMS_pair (c1 c2 : String) : colorsMS [c1, c2] = poolOf c1 + poolOf c2 := by
  have h1 : colorsMS [c1, c2] = poolOf c1 + colorsMS [c2] :=
    colorsMS_of_cons_eq c1 [c2] [c1, c2] rfl
  rw [h1, colorsMS_singleton]

theorem playersMS_nil : playersMS [] = 0 := rfl

theorem playersMS_cons (p : Player) (ps : List Player) :
    playersMS (p :: ps) = playerCardsMS p + playersMS ps := by
  simp [playersMS]

theorem colorsOfPlayers_nil : colorsOfPlayers [] = 0 := rfl

theorem colorsOfPlayers_cons (p : Player) (ps : List Player) :
    colorsOfPlayers (p :: ps) = colorsMS p.color + colorsOfPlayers ps := by
  simp [colorsOfPlayers]

theorem playerCardsMS_fillDeck (rand : List Nat) (p : Player) (cards : List Card) :
    playerCardsMS (fillDeck rand p cards).1
      = playerCardsMS p + ((cards.map cardPair : List (String × Nat)) : Multiset (String × Nat)) := by
  have hms := (shuffleDeck_ms rand (p.deck ++ cards)).1
  have hmap : (((shuffleDeck rand (p.deck ++ cards)).1.map cardPair : List (String × Nat))
        : Multiset (String × Nat))
      = ↑(p.deck.map cardPair) + ↑(cards.map cardPair) := by
    rw [← Multiset.map_coe, hms, Multiset.map_coe, List.map_append, ← Multiset.coe_add]
  unfold fillDeck playerCardsMS
  dsimp only
  rw [hmap]
  abel

theorem fillColors_ms (cs : List String) : ∀ (rand : List Nat) (p : Player),
    playerCardsMS (fillColors rand p cs).1 = playerCardsMS p + colorsMS cs := by
  induction cs with
  | nil =>
    intro rand p
    rw [colorsMS_nil, add_zero]
    rfl
  | cons c cs ih =>
    intro rand p
    unfold fillColors
    rw [ih, playerCardsMS_fillDeck,
      colorsMS_of_cons_eq c cs (c :: cs) rfl, add_assoc]
    rfl

theorem ne_nil_of_succ_length {α : Type} (l : List α) (n : Nat)
    (h : n + 1 ≤ l.length) : l ≠ [] := by
  intro he
  rw [he] at h
  simp at h

theorem d2go_ms (ps : List Player) : ∀ (rand : List Nat) (colors : List String),
    2 * ps.length ≤ colors.length →
    playersMS (d2go rand colors ps).1 + colorsMS (d2go rand colors ps).2.1
      = playersMS ps + colorsMS colors ∧
    (d2go rand colors ps).2.1.length + 2 * ps.length = colors.length := by
  induction ps with
  | nil =>
    intro rand colors h
    exact ⟨rfl, by simp [d2go]⟩
  | cons p ps ih =>
    intro rand colors h
    have hlen : 2 * ps.length + 2 ≤ colors.length := by
      simp only [List.length_cons] at h
      omega
    have hc1 : colors ≠ [] := ne_nil_of_succ_length colors (2 * ps.length + 1) (by omega)
    unfold d2go
    rcases htr1 : takeRand rand with ⟨r1, rand1⟩
    dsimp only
    rcases hpk1 : pickRemove colors r1 "" with ⟨c1, colors1⟩
    dsimp only
    rcases htr2 : takeRand rand1 with ⟨r2, rand2⟩
    dsimp only
    rcases hpk2 : pickRemove colors1 r2 "" with ⟨c2, colors2⟩
    dsimp only
    rcases hfc : fillColors rand2 { p with color := [c1, c2] } [c1, c2] with ⟨p2, rand3⟩
    dsimp only
    rcases hrec : d2go rand3 colors2 ps with ⟨rest, colorsF, randF⟩
    dsimp only
    have hp1 := pickRemove_ms colors r1 "" hc1
    rw [hpk1] at hp1
    dsimp only at hp1
    have hc2 : colors1 ≠ [] := ne_nil_of_succ_length colors1 (2 * ps.length) (by omega)
    have hp2 := pickRemove_ms colors1 r2 "" hc2
    rw [hpk2] at hp2
    dsimp only at hp2
    have hih := ih rand3 colors2 (by omega)
    rw [hrec] at hih
    dsimp only at hih
    have hfill := fillColors_ms [c1, c2] rand2 { p with color := [c1, c2] }
    rw [hfc] at hfill
    dsimp only at hfill
    have hpp : playerCardsMS { p with color := [c1, c2] } = playerCardsMS p := rfl
    constructor
    · rw [playersMS_cons, playersMS_cons, hfill, hpp, colorsMS_pair,
        colorsMS_of_cons_eq c1 colors1 colors hp1.1,
        colorsMS_of_cons_eq c2 colors2 colors1 hp2.1, add_assoc, hih.1]
      abel
    · simp only [List.length_cons]
      omega

theorem d4go_ms (ps : List Player) : ∀ (rand : List Nat) (colors : List String),
    ps.length ≤ colors.length →
    playersMS (d4go rand colors ps).1 + colorsMS (d4go rand colors ps).2.1
      = playersMS ps + colorsMS colors ∧
    (d4go rand colors ps).2.1.length + ps.length = colors.length := by
  induction ps with
  | nil =>
    intro rand colors h
    exact ⟨rfl, by simp [d4go]⟩
  | cons p ps ih =>
    intro rand colors h
    have hlen : ps.length + 1 ≤ colors.length := by
      simp only [List.length_cons] at h
      omega
    have hc1 : colors ≠ [] := ne_nil_of_succ_length colors ps.length (by omega)
    unfold d4go
    rcases htr1 : takeRand rand with ⟨r1, rand1⟩
    dsimp only
    rcases hpk1 : pickRemove colors r1 "" with ⟨c1, colors1⟩
    dsimp only
    rcases hfc : fillColors rand1 { p with color := [c1] } [c1] with ⟨p2, rand2⟩
    dsimp only
    rcases hrec : d4go rand2 colors1 ps with ⟨rest, colorsF, randF⟩
    dsimp only
    have hp1 := pickRemove_ms colors r1 "" hc1
    rw [hpk1] at hp1
    dsimp only at hp1
    have hih := ih rand2 colors1 (by omega)
    rw [hrec] at hih
    dsimp only at hih
    have hfill := fillColors_ms [c1] rand1 { p with color := [c1] }
    rw [hfc] at hfill
    dsimp only at hfill
    have hpp : playerCardsMS { p with color := [c1] } = playerCardsMS p := rfl
    constructor
    · rw [playersMS_cons, playersMS_cons, hfill, hpp, colorsMS_singleton,
        colorsMS_of_cons_eq c1 colors1 colors hp1.1, add_assoc, hih.1]
      abel
    · simp only [List.length_cons]
      omega

theorem pickN_ms (n : Nat) : ∀ (rand : List Nat) (pool : List Card),
    n ≤ pool.length →
    ((pickN rand pool n).1 : Multiset Card) + ((pickN rand pool n).2.1 : Multiset Card)
      = (pool : Multiset Card) ∧
    (pickN rand pool n).2.1.length + n = pool.length := by
  induction n with
  | zero =>
    intro rand pool h
    exact ⟨by simp [pickN], by simp [pickN]⟩
  | succ n ih =>
    intro rand pool h
    have hc : pool ≠ [] := ne_nil_of_succ_length pool n (by omega)
    unfold pickN
    rcases htr : takeRand rand with ⟨r1, rand1⟩
    dsimp only
    rcases hpk : pickRemove pool r1 defaultCard with ⟨c, pool1⟩
    dsimp only
    rcases hrec : pickN rand1 pool1 n with ⟨picked, poolF, randF⟩
    dsimp only
    have hp1 := pickRemove_ms pool r1 defaultCard hc
    rw [hpk] at hp1
    dsimp only at hp1
    have hih := ih rand1 pool1 (by omega)
    rw [hrec] at hih
    dsimp only at hih
    constructor
    · rw [← Multiset.cons_coe, Multiset.cons_add, hih.1]
      exact hp1.1
    · omega

theorem d3assign_ms (ps : List Player) : ∀ (rand : List Nat) (colors : List String),
    ps.length ≤ colors.length →
    (colorsOfPlayers (d3assign rand colors ps).1 + colorsMS (d3assign rand colors ps).2.1
      = colorsMS colors) ∧
    playersMS (d3assign rand colors ps).1 = playersMS ps ∧
    (d3assign rand colors ps).2.1.length + ps.length = colors.length := by
  induction ps with
  | nil =>
    intro rand colors h
    refine ⟨?_, rfl, by simp [d3assign]⟩
    simp only [d3assign]
    rw [colorsOfPlayers_nil, zero_add]
  | cons p ps ih =>
    intro rand colors h
    have hlen : ps.length + 1 ≤ colors.length := by
      simp only [List.length_cons] at h
      omega
    have hc1 : colors ≠ [] := ne_nil_of_succ_length colors ps.length (by omega)
    unfold d3assign
    rcases htr : takeRand rand with ⟨r1, rand1⟩
    dsimp only
    rcases hpk : pickRemove colors r1 "" with ⟨c1, colors1⟩
    dsimp only
    rcases hrec : d3assign rand1 colors1 ps with ⟨rest, colorsF, randF⟩
    dsimp only
    have hp1 := pickRemove_ms colors r1 "" hc1
    rw [hpk] at hp1
    dsimp only at hp1
    have hih := ih rand1 colors1 (by omega)
    rw [hrec] at hih
    dsimp only at hih
    refine ⟨?_, ?_, ?_⟩
    · rw [colorsOfPlayers_cons, colorsMS_of_cons_eq c1 colors1 colors hp1.1]
      have hcolp : colorsMS ({ p with color := [c1] } : Player).color = poolOf c1 :=
        colorsMS_singleton c1
      rw [hcolp, add_assoc, hih.1]
    · rw [playersMS_cons, playersMS_cons, hih.2.1]
      rfl
    · simp only [List.length_cons]
      omega

theorem d3fill_ms (ps : List Player) : ∀ (rand : List Nat) (pool : List Card),
    pool.length = 6 * ps.length →
    playersMS (d3fill rand pool ps).1
      = playersMS ps + colorsOfPlayers ps
        + ((pool.map cardPair : List (String × Nat)) : Multiset (String × Nat)) := by
  induction ps with
  | nil =>
    intro rand pool h
    have hp : pool = [] := by simpa using h
    subst hp
    simp [d3fill, playersMS_nil, colorsOfPlayers_nil]
  | cons p ps ih =>
    intro rand pool h
    unfold d3fill
    rcases hfc : fillColors rand p p.color with ⟨p1, rand1⟩
    dsimp only
    rcases hpk : pickN rand1 pool 6 with ⟨six, pool1, rand2⟩
    dsimp only
    rcases hfd : fillDeck rand2 p1 six with ⟨p2, rand3⟩
    dsimp only
    rcases hrec : d3fill rand3 pool1 ps with ⟨rest, poolF, randF⟩
    dsimp only
    have hlen : 6 ≤ pool.length := by
      simp only [List.length_cons] at h
      omega
    have hp6 := pickN_ms 6 rand1 pool hlen
    rw [hpk] at hp6
    dsimp only at hp6
    have hih := ih rand3 pool1 (by simp only [List.length_cons] at h; omega)
    rw [hrec] at hih
    dsimp only at hih
    have hfillc := fillColors_ms p.color rand p
    rw [hfc] at hfillc
    dsimp only at hfillc
    have hfilld := playerCardsMS_fillDeck rand2 p1 six
    rw [hfd] at hfilld
    dsimp only at hfilld
    rw [playersMS_cons, playersMS_cons, colorsOfPlayers_cons, hih, hfilld, hfillc]
    have hsplit : ((six.map cardPair : List (String × Nat)) : Multiset (String × Nat))
        + ((pool1.map cardPair : List (String × Nat)) : Multiset (String × Nat))
        = ((pool.map cardPair : List (String × Nat)) : Multiset (String × Nat)) := by
      have := congrArg (Multiset.map cardPair) hp6.1
      rw [Multiset.map_add, Multiset.map_coe, Multiset.map_coe, Multiset.map_coe] at this
      exact this
    rw [← hsplit]
    abel

theorem listCardFor_length (c : String) : (listCardFor c).length = 18 := rfl

theorem colorsMS_colorsInit : colorsMS colorsInit = fullPool := by decide

theorem cardDistribution_ms (rand : List Nat) (ps : List Player)
    (h : ps.length = 2 ∨ ps.length = 3 ∨ ps.length = 4) :
    playersMS (cardDistribution rand ps) = playersMS ps + fullPool := by
  unfold cardDistribution
  rcases h with h2 | h3 | h4
  · rw [if_pos h2]
    have hd := d2go_ms ps rand colorsInit (by rw [h2]; decide)
    have hci : colorsInit.length = 4 := rfl
    have hnil : (d2go rand colorsInit ps).2.1 = [] :=
      List.eq_nil_of_length_eq_zero (by have := hd.2; rw [h2, hci] at this; omega)
    have := hd.1
    rw [hnil, colorsMS_nil, add_zero, colorsMS_colorsInit] at this
    exact this
  · rw [if_neg (by omega), if_pos h3]
    dsimp only
    have ha := d3assign_ms ps rand colorsInit (by rw [h3]; decide)
    have halen := (d3assign_spec rand colorsInit ps).1
    have hci : colorsInit.length = 4 := rfl
    obtain ⟨lc, hlc⟩ : ∃ lc, (d3assign rand colorsInit ps).2.1 = [lc] := by
      rw [← List.length_eq_one]
      have := ha.2.2
      rw [h3, hci] at this
      omega
    have hhead : (d3assign rand colorsInit ps).2.1.headD "" = lc := by
      rw [hlc]
      rfl
    rw [hhead]
    have hf := d3fill_ms (d3assign rand colorsInit ps).1 (d3assign rand colorsInit ps).2.2
      (listCardFor lc) (by rw [listCardFor_length, halen, h3])
    rw [hf, ha.2.1]
    have hcol : colorsOfPlayers (d3assign rand colorsInit ps).1 + colorsMS [lc]
        = colorsMS colorsInit := by
      rw [← hlc]
      exact ha.1
    rw [colorsMS_singleton] at hcol
    have hpool : ((((listCardFor lc).map cardPair) : List (String × Nat))
        : Multiset (String × Nat)) = poolOf lc := rfl
    rw [hpool, add_assoc, hcol, colorsMS_colorsInit]
  · rw [if_neg (by omega), if_neg (by omega)]
    have hd := d4go_ms ps rand colorsInit (by rw [h4]; decide)
    have hci : colorsInit.length = 4 := rfl
    have hnil : (d4go rand colorsInit ps).2.1 = [] :=
      List.eq_nil_of_length_eq_zero (by have := hd.2; rw [h4, hci] at this; omega)
    have := hd.1
    rw [hnil, colorsMS_nil, add_zero, colorsMS_colorsInit] at this
    exact this

theorem playerCardsMS_zero (p : Player) (hd : p.deck = []) (hh : p.hand = Option.none) :
    playerCardsMS p = 0 := by
  unfold playerCardsMS
  rw [hd, hh]
  rfl

theorem playersMS_zero (ps : List Player)
    (h : ∀ p ∈ ps, p.deck = [] ∧ p.hand = Option.none) : playersMS ps = 0 := by
  induction ps with
  | nil => rfl
  | cons p ps ih =>
    rw [playersMS_cons,
      playerCardsMS_zero p (h p (List.mem_cons_self p ps)).1 (h p (List.mem_cons_self p ps)).2,
      ih (fun q hq => h q (List.mem_cons_of_mem p hq)), add_zero]

theorem playersMS_set (ps : List Player) : ∀ (i : Nat) (q : Player)
    (X : Multiset (String × Nat)), i < ps.length →
    playerCardsMS q + X = playerCardsMS (ps.getD i defaultPlayer) →
    playersMS (ps.set i q) + X = playersMS ps := by
  induction ps with
  | nil =>
    intro i q X h
    simp at h
  | cons p ps ih =>
    intro i q X h hq
    cases i with
    | zero =>
      rw [show (p :: ps).set 0 q = q :: ps from rfl, playersMS_cons, playersMS_cons]
      rw [List.getD_cons_zero] at hq
      rw [add_right_comm, hq]
    | succ i =>
      rw [show (p :: ps).set (i + 1) q = p :: ps.set i q from rfl, playersMS_cons,
        playersMS_cons, add_assoc,
        ih i q X (by simpa using h) (by rw [List.getD_cons_succ] at hq; exact hq)]

theorem drawCard_ms (p : Player) (hh : p.hand = Option.none) :
    playerCardsMS p.drawCard.1 = playerCardsMS p := by
  unfold Player.drawCard
  cases hl : p.deck.getLast? with
  | none => rfl
  | some c =>
    have hdeck : p.deck.dropLast ++ [c] = p.deck :=
      List.dropLast_append_getLast? c hl
    unfold playerCardsMS
    dsimp only
    rw [hh]
    conv_rhs => rw [← hdeck]
    rw [List.map_append, ← Multiset.coe_add]
    have hsing : ((([c].map cardPair : List (String × Nat))) : Multiset (String × Nat))
        = {cardPair c} := by
      rw [List.map_singleton, Multiset.coe_singleton]
    rw [hsing, add_zero]

theorem removeHand_ms (p : Player) (c : Card) (hh : p.hand = some c) :
    playerCardsMS { p with hand := Option.none } + {cardPair c} = playerCardsMS p := by
  unfold playerCardsMS
  dsimp only
  rw [hh]
  rw [add_zero]

theorem playersMS_map_preserve (f : Player → Player)
    (hf : ∀ p, playerCardsMS (f p) = playerCardsMS p) (ps : List Player) :
    playersMS (ps.map f) = playersMS ps := by
  induction ps with
  | nil => rfl
  | cons p ps ih =>
    rw [List.map_cons, playersMS_cons, playersMS_cons, hf, ih]

theorem playersMS_addPointsList (ps : List Player) (ws : List Nat) :
    playersMS (addPointsList ps ws) = playersMS ps := by
  rw [addPointsList_eq_map]
  exact playersMS_map_preserve
    (fun p => { p with points := p.points + ws.count p.pid }) (fun p => rfl) ps

/-- Board.init produces a valid player count and the full 72-card pool. -/
theorem init_inv (rand : List Nat) (r0 : Nat) (opts : List PlayerOptions) (n : Nat)
    (b : Board) (h : Board.init rand r0 opts n = some b) :
    (2 ≤ b.players.length ∧ b.players.length ≤ 4) ∧ gameCardsMS b = fullPool := by
  unfold Board.init at h
  by_cases hn : n < 2 ∨ 4 < n
  · rw [if_pos hn] at h
    exact absurd h (by simp)
  · rw [if_neg hn] at h
    dsimp only at h
    injection h with hb
    subst hb
    have hbase : ∀ p ∈ (List.range n).map (fun i => mkPlayer i (opts.getD i { name := "" })),
        p.deck = [] ∧ p.hand = Option.none := by
      intro p hp
      obtain ⟨i, _, rfl⟩ := List.mem_map.mp hp
      exact ⟨rfl, rfl⟩
    have hbaselen : ((List.range n).map (fun i => mkPlayer i (opts.getD i { name := "" }))).length
        = n := by simp
    have hzero : ∀ (lp : List Player), (∀ p ∈ lp, p.deck = [] ∧ p.hand = Option.none) →
        ∀ p ∈ (if lp.any (fun p => p.isTurn) then lp else randomizePlayerTurnSet r0 lp),
          p.deck = [] ∧ p.hand = Option.none := by
      intro lp hlp p hp
      by_cases ht : lp.any (fun p => p.isTurn)
      · rw [if_pos ht] at hp
        exact hlp p hp
      · rw [if_neg ht] at hp
        unfold randomizePlayerTurnSet at hp
        rcases List.mem_or_eq_of_mem_set hp with hmem | rfl
        · exact hlp p hmem
        · dsimp only
          by_cases hi : (r0 % 1000) % lp.length < lp.length
          · have := hlp _ (getD_mem_of_lt lp ((r0 % 1000) % lp.length) defaultPlayer hi)
            exact ⟨this.1, this.2⟩
          · rw [List.getD_eq_default _ _ (by omega)]
            exact ⟨rfl, rfl⟩
    have hlen : (if ((List.range n).map (fun i => mkPlayer i (opts.getD i { name := "" }))).any
          (fun p => p.isTurn) then
        (List.range n).map (fun i => mkPlayer i (opts.getD i { name := "" }))
      else randomizePlayerTurnSet r0
        ((List.range n).map (fun i => mkPlayer i (opts.getD i { name := "" })))).length = n := by
      split
      · exact hbaselen
      · unfold randomizePlayerTurnSet
        rw [List.length_set]
        exact hbaselen
    have hdist := cardDistribution_ms rand
      (if ((List.range n).map (fun i => mkPlayer i (opts.getD i { name := "" }))).any
          (fun p => p.isTurn) then
        (List.range n).map (fun i => mkPlayer i (opts.getD i { name := "" }))
      else randomizePlayerTurnSet r0
        ((List.range n).map (fun i => mkPlayer i (opts.getD i { name := "" }))))
      (by rw [hlen]; omega)
    have hdlen := (cardDistribution_spec rand
      (if ((List.range n).map (fun i => mkPlayer i (opts.getD i { name := "" }))).any
          (fun p => p.isTurn) then
        (List.range n).map (fun i => mkPlayer i (opts.getD i { name := "" }))
      else randomizePlayerTurnSet r0
        ((List.range n).map (fun i => mkPlayer i (opts.getD i { name := "" }))))).1
    constructor
    · dsimp only
      rw [hdlen, hlen]
      omega
    · unfold gameCardsMS
      dsimp only
      rw [hdist, playersMS_zero _ (hzero _ hbase)]
      simp

theorem placeCard_pos (b : Board) (card : Card) (x y : Int) (turn pid pt : Nat)
    (h : cardCanBePlaced b card x y = true) :
    placeCard b card x y turn pid pt
      = ({ b with cards := b.cards ++ [{ card with x := x, y := y, playedTurn := (turn : Int), playedIn := (pt : Int), playedBy := some pid }] }, true) := by
  unfold placeCard
  rw [if_pos h]

theorem placeCard_neg (b : Board) (card : Card) (x y : Int) (turn pid pt : Nat)
    (h : ¬ cardCanBePlaced b card x y = true) :
    placeCard b card x y turn pid pt = (b, false) := by
  unfold placeCard
  rw [if_neg h]

theorem playCard_inv (b : Board) (i pt : Nat) (c : Card) (x y : Int)
    (h : i < b.players.length) (hc : (b.players.getD i defaultPlayer).hand = some c) :
    (playCard b i pt c x y).1.players.length = b.players.length ∧
    gameCardsMS (playCard b i pt c x y).1 = gameCardsMS b := by
  unfold playCard
  dsimp only
  rw [show (b.players.getD i defaultPlayer).cardInHand = some c from hc]
  dsimp only
  by_cases hcp : cardCanBePlaced b c x y = true
  · rw [placeCard_pos b c x y b.turn _ pt hcp]
    dsimp only
    rw [hc]
    dsimp only
    rw [if_pos rfl]
    dsimp only
    constructor
    · rw [List.length_set]
    · unfold gameCardsMS
      dsimp only
      have hq := removeHand_ms (b.players.getD i defaultPlayer) c hc
      have hset := playersMS_set b.players i _ {cardPair c} h hq
      have hcards : (((b.cards ++ [{ c with x := x, y := y, playedTurn := (b.turn : Int), playedIn := (pt : Int), playedBy := some (b.players.getD i defaultPlayer).pid }]).map cardPair : List (String × Nat)) : Multiset (String × Nat))
          = ((b.cards.map cardPair : List (String × Nat)) : Multiset (String × Nat))
            + {cardPair c} := by
        rw [List.map_append, ← Multiset.coe_add, List.map_singleton, Multiset.coe_singleton]
        rfl
      rw [hcards]
      calc playersMS (b.players.set i
              { b.players.getD i defaultPlayer with hand := Option.none })
            + (((b.cards.map cardPair : List (String × Nat)) : Multiset (String × Nat))
              + {cardPair c})
          = playersMS (b.players.set i
              { b.players.getD i defaultPlayer with hand := Option.none }) + {cardPair c}
            + ((b.cards.map cardPair : List (String × Nat)) : Multiset (String × Nat)) := by
            abel
        _ = playersMS b.players
            + ((b.cards.map cardPair : List (String × Nat)) : Multiset (String × Nat)) := by
            rw [hset]
  · rw [placeCard_neg b c x y b.turn _ pt hcp]
    dsimp only
    exact ⟨rfl, rfl⟩

theorem gameStep_inv {b b' : Board} (hs : GameStep b b')
    (hlen : 2 ≤ b.players.length ∧ b.players.length ≤ 4)
    (hms : gameCardsMS b = fullPool) :
    (2 ≤ b'.players.length ∧ b'.players.length ≤ 4) ∧ gameCardsMS b' = fullPool := by
  cases hs with
  | draw i h hh =>
    constructor
    · unfold boardDrawAt
      dsimp only
      rw [List.length_set]
      exact hlen
    · unfold gameCardsMS boardDrawAt
      dsimp only
      have hq : playerCardsMS (b.players.getD i defaultPlayer).drawCard.1 + 0
          = playerCardsMS (b.players.getD i defaultPlayer) := by
        rw [add_zero, drawCard_ms _ hh]
      have hset := playersMS_set b.players i _ 0 h hq
      rw [add_zero] at hset
      rw [hset]
      exact hms
  | play i pt c x y h hc =>
    have hp := playCard_inv b i pt c x y h hc
    exact ⟨by rw [hp.1]; exact hlen, by rw [hp.2]; exact hms⟩
  | ending wt ws ls =>
    have hlen' : (endGame b wt ws ls).players.length = b.players.length := by
      unfold endGame
      dsimp only
      split
      · dsimp only
        rw [addPointsList_length]
      · rfl
    have hms' : gameCardsMS (endGame b wt ws ls) = gameCardsMS b := by
      unfold endGame gameCardsMS
      dsimp only
      split
      · dsimp only
        rw [playersMS_addPointsList]
      · rfl
    exact ⟨by rw [hlen']; exact hlen, by rw [hms']; exact hms⟩
  | turnIncr => exact ⟨hlen, hms⟩
  | turnFlag i v h =>
    constructor
    · unfold setIsTurn
      dsimp only
      rw [List.length_set]
      exact hlen
    · unfold gameCardsMS setIsTurn
      dsimp only
      have hq : playerCardsMS { b.players.getD i defaultPlayer with isTurn := v } + 0
          = playerCardsMS (b.players.getD i defaultPlayer) := by
        rw [add_zero]
        rfl
      have hset := playersMS_set b.players i _ 0 h hq
      rw [add_zero] at hset
      rw [hset]
      exact hms
  | resetStep rand =>
    have hemp : ∀ p ∈ (b.players.map Player.reset).set (resetFirstIdx b)
        { (b.players.map Player.reset).getD (resetFirstIdx b) defaultPlayer with
            isTurn := true,
            nbrFirstPlayer :=
              ((b.players.map Player.reset).getD (resetFirstIdx b)
                  defaultPlayer).nbrFirstPlayer + 1 },
        p.deck = [] ∧ p.hand = Option.none := by
      intro p hp
      rcases List.mem_or_eq_of_mem_set hp with hmem | rfl
      · obtain ⟨q, _, rfl⟩ := List.mem_map.mp hmem
        exact ⟨rfl, rfl⟩
      · dsimp only
        by_cases hi : resetFirstIdx b < (b.players.map Player.reset).length
        · obtain ⟨q, _, hq⟩ := List.mem_map.mp
            (getD_mem_of_lt (b.players.map Player.reset) (resetFirstIdx b) defaultPlayer hi)
          rw [← hq]
          exact ⟨rfl, rfl⟩
        · rw [List.getD_eq_default _ _ (by omega)]
          exact ⟨rfl, rfl⟩
    have hlen2 : ((b.players.map Player.reset).set (resetFirstIdx b)
        { (b.players.map Player.reset).getD (resetFirstIdx b) defaultPlayer with
            isTurn := true,
            nbrFirstPlayer :=
              ((b.players.map Player.reset).getD (resetFirstIdx b)
                  defaultPlayer).nbrFirstPlayer + 1 }).length = b.players.length := by
      rw [List.length_set, List.length_map]
    have hridx : playerTurnByNbrFirstPlayerIdx (List.map Player.reset b.players) false
        = resetFirstIdx b := rfl
    constructor
    · have : (Board.reset rand b).players.length = b.players.length := by
        unfold Board.reset
        dsimp only
        rw [hridx, (cardDistribution_spec rand _).1, hlen2]
      rw [this]
      exact hlen
    · unfold Board.reset gameCardsMS
      dsimp only
      rw [hridx, cardDistribution_ms rand _ (by rw [hlen2]; omega),
        playersMS_zero _ hemp, zero_add]
      simp

theorem reachable_inv (b : Board) (hr : Reachable b) :
    (2 ≤ b.players.length ∧ b.players.length ≤ 4) ∧ gameCardsMS b = fullPool := by
  induction hr with
  | init rand r0 opts n b h => exact init_inv rand r0 opts n b h
  | step hr hs ih => exact gameStep_inv hs ih.1 ih.2

/-- C4: in every game state reachable from construction (for all valid player
counts) through the game flow — draws, placements of the held card, game
endings, turn bookkeeping and resets — the total number of cards across all
draw piles, hands and the board is 72, and each (color, value) pair with one
of the four colors and value 1..9 occurs exactly twice. -/
theorem conservation (b : Board) (hr : Reachable b) :
    totalGameCards b = 72 ∧
    ∀ color v, color ∈ colorsInit → 1 ≤ v → v ≤ 9 → pairCount b color v = 2 := by
  have hms := (reachable_inv b hr).2
  constructor
  · unfold totalGameCards
    rw [hms]
    decide
  · intro color v hcol h1 h9
    unfold pairCount
    rw [hms]
    fin_cases hcol <;> interval_cases v <;> decide

/-- Witness for C4: a freshly constructed 2-player board. -/
theorem conservation_witness :
    totalGameCards ((Board.init [] 0 [{ name := "A" }, { name := "B" }] 2).getD {}) = 72 ∧
    pairCount ((Board.init [] 0 [{ name := "A" }, { name := "B" }] 2).getD {}) "red" 1 = 2 := by
  have hr : Reachable ((Board.init [] 0 [{ name := "A" }, { name := "B" }] 2).getD {}) :=
    Reachable.init [] 0 [{ name := "A" }, { name := "B" }] 2 _ rfl
  exact ⟨(conservation _ hr).1,
    (conservation _ hr).2 "red" 1 (by decide) (by decide) (by decide)⟩

end Punto
